import Mathlib

/-!
Verification development for the `clip-utils` video compression core
(`src/Main.py`, class `VideoCompressorThread`).

The Python worker thread is shallowly embedded as executable Lean
definitions:

* Python strings are modelled as `List Char`; the Python string
  operations used by the thread (`split`, `replace`, whitespace `split`,
  substring containment) are re-implemented faithfully over `List Char`.
* Python floats are modelled as `ℚ` (the arithmetic performed by the
  thread — `*`, `/`, `min`, `int()` truncation, `round(_, 1)` — is exact
  on the rationals; binary-float rounding noise is not modelled).
* The external world (ffprobe durations, subprocess stderr streams and
  return codes, file sizes, `shutil.move` success) is an explicit
  environment record `Env`.
* Qt signal emissions and subprocess invocations are recorded in an
  event trace (`Event`).  Log-line forwarding (`log_signal`) and the
  cosmetic `bitrate=` line reordering are elided from the trace: no
  claim concerns log text.  Wall-clock elapsed time in `done_signal` is
  likewise elided (not modellable).
* A raised Python exception is modelled as an `Option String` carrying
  the message; `run`'s `try/except` converts it into an `error_signal`
  emission exactly as the source does.
-/

namespace ClipUtils

/-! ### Python string primitives over `List Char` -/

/-- Python `str.split(sep)` for a single-character separator.
`''.split(':') = ['']`, so the empty string yields `[[]]`. -/
def splitOnChar (sep : Char) : List Char → List (List Char)
  | [] => [[]]
  | c :: rest =>
      let r := splitOnChar sep rest
      if c = sep then [] :: r
      else
        match r with
        | [] => [[c]]
        | p :: ps => (c :: p) :: ps

/-- Python `s.replace(',', '.')`. -/
def commaToDot (s : List Char) : List Char :=
  s.map (fun c => if c = ',' then '.' else c)

/-- Whitespace test for Python `str.split()` / `float()` stripping. -/
def pyIsSpace (c : Char) : Bool :=
  c = ' ' || c = '\t' || c = '\n' || c = '\r'

/-- Worker for `pySplitWs`: accumulates the current token (reversed). -/
def splitWsAux : List Char → List Char → List (List Char)
  | acc, [] => if acc.isEmpty then [] else [acc.reverse]
  | acc, c :: rest =>
      if pyIsSpace c then
        if acc.isEmpty then splitWsAux [] rest
        else acc.reverse :: splitWsAux [] rest
      else splitWsAux (c :: acc) rest

/-- Python `str.split()` with no argument: split on whitespace runs,
discarding empty tokens. -/
def pySplitWs (s : List Char) : List (List Char) :=
  splitWsAux [] s

/-- Drop `p` from the front of `s` when it is a prefix. -/
def stripPrefixQ : List Char → List Char → Option (List Char)
  | [], s => some s
  | _ :: _, [] => none
  | a :: as, b :: bs => if a = b then stripPrefixQ as bs else none

/-- The separator `"time="` used by the stderr scanner. -/
def timeSep : List Char := ['t', 'i', 'm', 'e', '=']

/-- Worker for `splitOnTime`.  The first argument counts separator
characters still to be skipped after a match ( `"time="` cannot overlap
itself, so restarting the scan inside a matched separator is safe as
long as the skipped characters are not accumulated). -/
def splitTimeAux : ℕ → List Char → List Char → List (List Char)
  | _, acc, [] => [acc.reverse]
  | skip + 1, acc, _ :: rest => splitTimeAux skip acc rest
  | 0, acc, c :: rest =>
      match stripPrefixQ timeSep (c :: rest) with
      | some _ => acc.reverse :: splitTimeAux 4 [] rest
      | none => splitTimeAux 0 (c :: acc) rest

/-- Python `line.split('time=')`. -/
def splitOnTime (s : List Char) : List (List Char) :=
  splitTimeAux 0 [] s

/-! ### Python `float()` (decimal forms) -/

/-- Leading decimal digits of a character list, as numeric values,
together with the remainder. -/
def takeDigits : List Char → List ℕ × List Char
  | [] => ([], [])
  | c :: rest =>
      if c.isDigit then
        let r := takeDigits rest
        ((c.toNat - 48) :: r.1, r.2)
      else ([], c :: rest)

/-- Value of a digit list read as an integer. -/
def natOfDigits (ds : List ℕ) : ℕ :=
  ds.foldl (fun a d => a * 10 + d) 0

/-- Value of a digit list read as a fractional part (after the dot). -/
def fracOfDigits (ds : List ℕ) : ℚ :=
  ds.foldr (fun d a => ((d : ℚ) + a) / 10) 0

/-- Strip leading and trailing whitespace (Python `float()` does). -/
def trimWs (s : List Char) : List Char :=
  ((s.dropWhile pyIsSpace).reverse.dropWhile pyIsSpace).reverse

/-- Syntactic layer of Python `float(s)` restricted to plain decimal
literals `[+-]digits[.digits]`, `[+-].digits`, `[+-]digits.` — the only
shapes relevant to ffmpeg timestamps.  (Exponent forms and `inf`/`nan`,
which Python would also accept, do not occur in the diagnostic stream
and are not modelled.)  Returns the sign (`true` = negative), the
integer-part digits and the fractional-part digits; `none` models a
raised `ValueError`. -/
def pyFloatRepr (s0 : List Char) : Option (Bool × List ℕ × List ℕ) :=
  let s1 := trimWs s0
  let signed : Bool × List Char :=
    match s1 with
    | '-' :: t => (true, t)
    | '+' :: t => (false, t)
    | _ => (false, s1)
  let ip := takeDigits signed.2
  match ip.2 with
  | [] =>
      if ip.1.isEmpty then none
      else some (signed.1, ip.1, [])
  | '.' :: t =>
      let fp := takeDigits t
      if fp.2.isEmpty && !(ip.1.isEmpty && fp.1.isEmpty) then
        some (signed.1, ip.1, fp.1)
      else none
  | _ => none

/-- Numeric value of a parsed decimal literal. -/
def reprVal (r : Bool × List ℕ × List ℕ) : ℚ :=
  (if r.1 then (-1 : ℚ) else 1) *
    ((natOfDigits r.2.1 : ℚ) + fracOfDigits r.2.2)

/-- Python `float(s)` on decimal literals: parse, then take the value. -/
def pyFloatChars (s0 : List Char) : Option ℚ :=
  (pyFloatRepr s0).map reprVal

/-! ### Time Parser (`parse_time_to_seconds`, src/Main.py lines 253-263) -/

/-- The `list(map(float, time_str.replace(',', '.').split(':')))` step:
`none` models the `ValueError` caught by the bare `except`. -/
def floatParts (t : List Char) : Option (List ℚ) :=
  (splitOnChar ':' (commaToDot t)).mapM pyFloatChars

/-- `VideoCompressorThread.parse_time_to_seconds`.  Three parts are
hours/minutes/seconds, two are minutes/seconds; the `else` branch of the
source returns `parts[0]`, which covers one part and also four or more;
any exception yields `0`. -/
def parse_time_to_seconds (t : List Char) : ℚ :=
  match floatParts t with
  | none => 0
  | some [a, b, c] => a * 3600 + b * 60 + c
  | some [a, b] => a * 60 + b
  | some (a :: _) => a
  | some [] => 0

/-! ### Numeric conversions -/

/-- Python `int()` on a float: truncation toward zero. -/
def pyInt (q : ℚ) : ℤ :=
  if q < 0 then -(⌊-q⌋) else ⌊q⌋

/-- Round-half-to-even to an integer, as Python `round` does. -/
def roundHalfEven (q : ℚ) : ℤ :=
  if q - ⌊q⌋ < 1 / 2 then ⌊q⌋
  else if 1 / 2 < q - ⌊q⌋ then ⌊q⌋ + 1
  else if 2 ∣ ⌊q⌋ then ⌊q⌋ else ⌊q⌋ + 1

/-- `VideoCompressorThread.get_file_size`:
`round(os.path.getsize(p) / (1024 * 1024), 1)` in megabytes. -/
def get_file_size (sizeBytes : ℕ) : ℚ :=
  (roundHalfEven ((sizeBytes : ℚ) / (1024 * 1024) * 10) : ℚ) / 10

/-! ### Data model: external world and observable events -/

/-- Observed behaviour of one ffmpeg subprocess: the stderr lines the
thread iterates over, and the return code `process.wait()` reports. -/
structure Proc where
  stderrLines : List (List Char)
  returncode : ℤ
  deriving DecidableEq

/-- A shape of external-engine invocation (the command lists built at
src/Main.py lines 151-160, 187-191 and 194-198).  `bitrate` is the value
interpolated into `-b:v`; a pass-1 sink is the discard target, so its
`output` is `none`. -/
inductive Invocation where
  | trim (input : List Char) (start duration : ℚ) (output : List Char)
  | encodePass (input : List Char) (bitrate : Option ℚ) (passNumber : ℕ)
      (output : Option (List Char))
  deriving DecidableEq

/-- Observable events of one job, in emission order.  `progress n` is a
`progress_signal.emit(n)`, `done`/`error` are the terminal signals,
`cleanupRun` marks a call to `cleanup_temp_files`, `invoked` marks a
subprocess `Popen`, `moved` marks the `shutil.move` of the trimmed file
onto the output path (content-preserving relocation). -/
inductive Event where
  | progress (n : ℤ)
  | invoked (i : Invocation)
  | moved (src dst : List Char)
  | done (path : List Char) (sizeMB : ℚ)
  | error (msg : String)
  | cleanupRun
  deriving DecidableEq

/-- The external world one job runs against: ffprobe results per path
(`none` models a probe whose output fails to parse), file sizes per path
(`none` models `os.path.getsize` raising), the three subprocesses, and
whether `shutil.move` succeeds. -/
structure Env where
  probeDuration : List Char → Option ℚ
  fileSizeBytes : List Char → Option ℕ
  trimProc : Proc
  pass1Proc : Proc
  pass2Proc : Proc
  moveOk : Bool

/-- The constructor arguments of `VideoCompressorThread.__init__`.
`none` models Python `None`. -/
structure Job where
  input_file : List Char
  output_file : List Char
  target_size : Option ℚ
  target_bitrate : Option ℚ
  start_time : Option ℚ
  end_time : Option ℚ

/-- Result of one pipeline step: events emitted so far, the
`last_progress` field after the step, and `some msg` when the step
raised an exception with message `msg`. -/
structure StepRes where
  events : List Event
  lastProgress : ℤ
  exn : Option String
  deriving DecidableEq

/-! ### Diagnostic Stream Reader and Two-Pass Encoder
(`run_ffmpeg_command`, src/Main.py lines 201-251) -/

/-- The `time=` extraction of lines 232-233:
`line.split('time=')[1].split()[0]`.  `none`: the line has no `time=`
marker (no extraction attempted); `some none`: marker present but
nothing follows it (`[0]` of an empty split raises `IndexError`);
`some (some tok)`: the extracted token. -/
def extractTimeToken (line : List Char) : Option (Option (List Char)) :=
  match splitOnTime line with
  | _ :: after :: _ => some (pySplitWs after).head?
  | _ => none

/-- The percent computed at lines 236-239 from an extracted timestamp
token: `progress = min(current_time / (duration + 2) * 50, 50)`, and for
pass 2 additionally `progress += 50; progress = min(progress, 100)`. -/
def linePercent (passNumber : ℕ) (duration : ℚ) (tok : List Char) : ℚ :=
  if passNumber = 2 then
    min (min (parse_time_to_seconds tok / (duration + 2) * 50) 50 + 50) 100
  else min (parse_time_to_seconds tok / (duration + 2) * 50) 50

/-- One iteration of the stderr loop, progress part (lines 232-243).
Returns `none` when the iteration raises (`IndexError`), otherwise the
new `last_progress` and the emitted percent, if any.  The source emits
only when `int(progress)` strictly exceeds `last_progress` (the guard at
line 241), and the `duration > 0` guard of line 235 skips the whole
computation otherwise. -/
def lineUpdate (passNumber : ℕ) (duration : ℚ) (last : ℤ) (line : List Char) :
    Option (ℤ × Option ℤ) :=
  match extractTimeToken line with
  | none => some (last, none)
  | some none => none
  | some (some tok) =>
      if 0 < duration then
        if last < pyInt (linePercent passNumber duration tok) then
          some (pyInt (linePercent passNumber duration tok),
            some (pyInt (linePercent passNumber duration tok)))
        else some (last, none)
      else some (last, none)

/-- The stderr loop of `run_ffmpeg_command` over all lines: emitted
percents in order, and the final `last_progress` (`none` when an
iteration raised, aborting the loop). -/
def passLoop (passNumber : ℕ) (duration : ℚ) : ℤ → List (List Char) → List ℤ × Option ℤ
  | last, [] => ([], some last)
  | last, l :: rest =>
      match lineUpdate passNumber duration last l with
      | none => ([], none)
      | some (last', e) =>
          (e.toList ++ (passLoop passNumber duration last' rest).1,
            (passLoop passNumber duration last' rest).2)

/-- `VideoCompressorThread.run_ffmpeg_command` (lines 201-251): spawn
the subprocess; if this is pass 2, immediately emit 50; stream the
stderr lines; wait; if this is pass 1, emit a final explicit 50 and set
`last_progress := 50`.  The subprocess return code is never inspected —
faithful to the source, which has no `returncode` check here.  Returns
the events and the final `last_progress` (`none` when the loop raised,
i.e. the exception aborted the `with` block). -/
def run_ffmpeg_command (inv : Invocation) (passNumber : ℕ) (duration : ℚ)
    (p : Proc) (last : ℤ) : List Event × Option ℤ :=
  match passLoop passNumber duration last p.stderrLines with
  | (vs, none) =>
      (Event.invoked inv :: (if passNumber = 2 then [Event.progress 50] else []) ++
        vs.map Event.progress, none)
  | (vs, some last') =>
      if passNumber = 1 then
        (Event.invoked inv :: (if passNumber = 2 then [Event.progress 50] else []) ++
          vs.map Event.progress ++ [Event.progress 50], some 50)
      else
        (Event.invoked inv :: (if passNumber = 2 then [Event.progress 50] else []) ++
          vs.map Event.progress, some last')

/-- Python's `x or y` on the bitrate argument (line 180): `0.0` and
`None` are falsy and fall back to `self.target_bitrate`. -/
def pyOrQ (x fallback : Option ℚ) : Option ℚ :=
  match x with
  | some b => if b = 0 then fallback else some b
  | none => fallback

/-- `VideoCompressorThread.compress_video` (lines 178-199): resolve the
defaulted arguments, probe the input duration (raising `ValueError` when
the probe failed), then run encode pass 1 (analysis, discard sink) and
encode pass 2 (real output) through `run_ffmpeg_command`. -/
def compress_video (env : Env) (j : Job) (inputArg : Option (List Char))
    (bitrateArg : Option ℚ) (last : ℤ) : StepRes :=
  match env.probeDuration (inputArg.getD j.input_file) with
  | none => ⟨[], last, some "Failed to get video duration."⟩
  | some duration =>
      match run_ffmpeg_command
        (.encodePass (inputArg.getD j.input_file)
          (pyOrQ bitrateArg j.target_bitrate) 1 none) 1
        duration env.pass1Proc last with
      | (evs1, none) =>
          ⟨evs1, last, some "IndexError: list index out of range"⟩
      | (evs1, some l1) =>
          match run_ffmpeg_command
            (.encodePass (inputArg.getD j.input_file)
              (pyOrQ bitrateArg j.target_bitrate) 2 (some j.output_file)) 2
            duration env.pass2Proc l1 with
          | (evs2, none) =>
              ⟨evs1 ++ evs2, l1, some "IndexError: list index out of range"⟩
          | (evs2, some l2) => ⟨evs1 ++ evs2, l2, none⟩

/-- `VideoCompressorThread.trim_video` (lines 145-176): computes
`duration = end_time - start_time` (a `TypeError` when either is `None`,
raised before any subprocess is spawned), spawns the stream-copy trim,
and raises `RuntimeError("Trimming failed.")` on a non-zero exit. -/
def trim_video (env : Env) (j : Job) (output : List Char) :
    List Event × Option String :=
  match j.start_time, j.end_time with
  | some s, some e =>
      if env.trimProc.returncode ≠ 0 then
        ([Event.invoked (.trim j.input_file s (e - s) output)],
          some "Trimming failed.")
      else ([Event.invoked (.trim j.input_file s (e - s) output)], none)
  | _, _ => ([], some "unsupported operand type(s) for -: TypeError")

/-- The scratch path `temp_<basename>` of lines 126-127 (the
scratch-directory join and `os.path.basename` are flattened into a name
prefix; path structure plays no role in any claim). -/
def tempName (input : List Char) : List Char :=
  ['t', 'e', 'm', 'p', '_'] ++ input

/-- The bitrate computation of lines 138-142: raise
`ValueError("Failed to get duration of trimmed video.")` when the probe
returned nothing, then `target_size * 8 * 1024 / duration` — a
`ZeroDivisionError` when the duration is exactly zero (Python float
division), and no clamping of the result. -/
def plan_bitrate (target_size : ℚ) (duration : Option ℚ) : Except String ℚ :=
  match duration with
  | none => .error "Failed to get duration of trimmed video."
  | some d =>
      if d = 0 then .error "float division by zero"
      else .ok (target_size * 8 * 1024 / d)

/-- `VideoCompressorThread.compress_trim_video` (lines 125-143): trim
into the scratch file, compare its rounded megabyte size against the
target; move it to the output when it already fits (raising a
`RuntimeError` when the move fails), otherwise recompute the bitrate
from the trimmed file's probed duration and re-encode the trimmed file
to the output.  (`self.temp_files.append` only grows the never-read
artifact list; see `cleanup_temp_files`.) -/
def compress_trim_video (env : Env) (j : Job) (ts : ℚ) (last : ℤ) : StepRes :=
  match trim_video env j (tempName j.input_file) with
  | (tevs, some m) => ⟨tevs, last, some m⟩
  | (tevs, none) =>
      match env.fileSizeBytes (tempName j.input_file) with
      | none => ⟨tevs, last, some "OSError: getsize failed"⟩
      | some b =>
          if get_file_size b ≤ ts then
            if env.moveOk then
              ⟨tevs ++ [Event.moved (tempName j.input_file) j.output_file],
                last, none⟩
            else ⟨tevs, last, some "Failed to use trimmed video: move error"⟩
          else
            match plan_bitrate ts (env.probeDuration (tempName j.input_file)) with
            | .error m => ⟨tevs, last, some m⟩
            | .ok bitrate =>
                ⟨tevs ++ (compress_video env j (some (tempName j.input_file))
                    (some bitrate) last).events,
                  (compress_video env j (some (tempName j.input_file))
                    (some bitrate) last).lastProgress,
                  (compress_video env j (some (tempName j.input_file))
                    (some bitrate) last).exn⟩

/-- The guard `self.target_size is not None and self.target_size > 0`
(line 101/106). -/
def hasTarget (j : Job) : Bool :=
  match j.target_size with
  | some ts => decide (0 < ts)
  | none => false

/-- The guard `self.start_time is not None and self.end_time is not
None` (line 102). -/
def hasWindow (j : Job) : Bool :=
  j.start_time.isSome && j.end_time.isSome

/-- The `try` body of `VideoCompressorThread.run` (lines 100-113): the
three-way branch, with the trim-only branch emitting `progress 100`
after a successful trim. -/
def pipeline (env : Env) (j : Job) : StepRes :=
  if hasTarget j && hasWindow j then
    compress_trim_video env j (j.target_size.getD 0) 0
  else if hasTarget j then
    compress_video env j none none 0
  else
    match trim_video env j j.output_file with
    | (tevs, some m) => ⟨tevs, 0, some m⟩
    | (tevs, none) => ⟨tevs ++ [Event.progress 100], 0, none⟩

/-- `VideoCompressorThread.run` (lines 96-123).  On an exception the
`except` arm emits `error_signal` then runs cleanup; on success the code
*after* the `try` reads the output size (`os.path.getsize` — an
exception here escapes the thread uncaught, second component `some`),
emits `done_signal`, then runs cleanup.  Elapsed wall-clock time in the
done signal is elided. -/
def run (env : Env) (j : Job) : List Event × Option String :=
  match (pipeline env j).exn with
  | some m =>
      ((pipeline env j).events ++
        [Event.error ("Error: " ++ m), Event.cleanupRun], none)
  | none =>
      match env.fileSizeBytes j.output_file with
      | none => ((pipeline env j).events, some "OSError: getsize failed")
      | some b =>
          ((pipeline env j).events ++
            [Event.done j.output_file (get_file_size b), Event.cleanupRun],
            none)

/-! ### Artifact cleanup (`cleanup_temp_files`, src/Main.py lines 265-274) -/

/-- What `os.path.isfile` / `os.path.isdir` report for one entry of
`os.listdir(self.cliputils_folder)`.  An entry that is neither (e.g. a
dangling link) falls through both branches of the source untouched. -/
inductive EntryKind where
  | file
  | dir
  | other
  deriving DecidableEq

/-- One directory entry of the scratch folder at cleanup time, with
whether its deletion call (`os.remove` / `shutil.rmtree`) would raise. -/
structure DirEntry where
  name : List Char
  kind : EntryKind
  deleteFails : Bool
  deriving DecidableEq

/-- The deletion loop body: returns the entries still present afterwards
and the names for which an error was printed.  A failing deletion is
caught per entry and the loop continues. -/
def cleanupLoop : List DirEntry → List DirEntry × List (List Char)
  | [] => ([], [])
  | e :: rest =>
      let r := cleanupLoop rest
      match e.kind with
      | .file => if e.deleteFails then (e :: r.1, e.name :: r.2) else r
      | .dir => if e.deleteFails then (e :: r.1, e.name :: r.2) else r
      | .other => (e :: r.1, r.2)

/-- `VideoCompressorThread.cleanup_temp_files`: iterates over the
*directory listing*; the registered artifact list `self.temp_files` is a
parameter only to witness that the source never reads it. -/
def cleanup_temp_files (listing : List DirEntry)
    (registered : List (List Char)) : List DirEntry × List (List Char) :=
  cleanupLoop listing

/-! ### Trace observations -/

/-- The percent values carried by the `progress_signal` emissions of a
trace, in order. -/
def progressValues (evs : List Event) : List ℤ :=
  evs.filterMap (fun e => match e with | .progress n => some n | _ => none)

/-- Is this event the `done_signal` emission? -/
def isDoneB : Event → Bool
  | .done _ _ => true
  | _ => false

/-- Is this event the `error_signal` emission? -/
def isErrorB : Event → Bool
  | .error _ => true
  | _ => false

/-- Is this event a cleanup marker? -/
def isCleanupB : Event → Bool
  | .cleanupRun => true
  | _ => false

/-- A terminal event: `done_signal` or `error_signal`. -/
def terminalB (e : Event) : Bool := isDoneB e || isErrorB e

/-- Events that are neither terminal nor the cleanup marker — all the
pipeline body may emit. -/
def benignB : Event → Bool
  | .progress _ => true
  | .invoked _ => true
  | .moved _ _ => true
  | _ => false

/-- The in-pass upper bound on an emitted percent: 50 during pass 1,
100 during pass 2. -/
def passCap (passNumber : ℕ) : ℤ :=
  if passNumber = 2 then 100 else 50

/-- An encode env differing from `env` only in the two encode-pass
return codes (the trim return code and everything else unchanged). -/
def withPassRets (env : Env) (r1 r2 : ℤ) : Env :=
  { env with
    pass1Proc := ⟨env.pass1Proc.stderrLines, r1⟩
    pass2Proc := ⟨env.pass2Proc.stderrLines, r2⟩ }

/-! ### Concrete jobs and environments for counterexamples and
witnesses -/

/-- A sample input path. -/
def inPath : List Char := "in.mp4".data

/-- A sample output path. -/
def outPath : List Char := "out.mp4".data

/-- A compress-only job: target size 10 MB, no trim window. -/
def jobCompress : Job := ⟨inPath, outPath, some 10, some 800, none, none⟩

/-- A trim-only job: no target size, window `[0, 5]`. -/
def jobTrimOnly : Job := ⟨inPath, outPath, none, none, some 0, some 5⟩

/-- A job with neither a positive target size nor a complete window. -/
def jobNeither : Job := ⟨inPath, outPath, none, none, none, none⟩

/-- A job with both a target size and a trim window. -/
def jobBoth : Job := ⟨inPath, outPath, some 10, some 800, some 2, some 7⟩

/-- C1 counterexample world: both encode passes exit with code 1, yet
the output file exists afterwards (5 MB). -/
def envC1x : Env :=
  { probeDuration := fun p => if p = inPath then some 120 else none
    fileSizeBytes := fun p => if p = outPath then some 5242880 else none
    trimProc := ⟨[], 0⟩
    pass1Proc := ⟨[], 1⟩
    pass2Proc := ⟨[], 1⟩
    moveOk := true }

/-- C1 witness world: the trim subprocess exits with code 1. -/
def envC1w : Env :=
  { probeDuration := fun _ => none
    fileSizeBytes := fun _ => none
    trimProc := ⟨[], 1⟩
    pass1Proc := ⟨[], 0⟩
    pass2Proc := ⟨[], 0⟩
    moveOk := true }

/-- C2 counterexample world: the trim subprocess fails, driving the
error path. -/
def envC2x : Env :=
  { probeDuration := fun _ => none
    fileSizeBytes := fun _ => none
    trimProc := ⟨[], 1⟩
    pass1Proc := ⟨[], 0⟩
    pass2Proc := ⟨[], 0⟩
    moveOk := true }

/-- C2 witness world: a successful trim-only run whose output file can
be measured (1 MB). -/
def envC2w : Env :=
  { probeDuration := fun _ => none
    fileSizeBytes := fun p => if p = outPath then some 1048576 else none
    trimProc := ⟨[], 0⟩
    pass1Proc := ⟨[], 0⟩
    pass2Proc := ⟨[], 0⟩
    moveOk := true }

/-- C3 counterexample world: duration 10 s, pass 2 sees a single
diagnostic line at elapsed time 1 s, so its last forwarded percent is
54, and nothing further is emitted when pass 2 exits. -/
def envC3x : Env :=
  { probeDuration := fun p => if p = inPath then some 10 else none
    fileSizeBytes := fun p => if p = outPath then some 1048576 else none
    trimProc := ⟨[], 0⟩
    pass1Proc := ⟨[], 0⟩
    pass2Proc := ⟨["frame=1 time=00:00:01.00 x".data], 0⟩
    moveOk := true }

/-- C4 counterexample world: like `envC3x` with elapsed time 2 s; the
full forwarded sequence is `[50, 50, 58]`, whose first two entries are
equal. -/
def envC4x : Env :=
  { probeDuration := fun p => if p = inPath then some 10 else none
    fileSizeBytes := fun p => if p = outPath then some 1048576 else none
    trimProc := ⟨[], 0⟩
    pass1Proc := ⟨[], 0⟩
    pass2Proc := ⟨["frame=2 time=00:00:02.00 x".data], 0⟩
    moveOk := true }

/-- C5 witness world: a clean trim-only run. -/
def envC5w : Env :=
  { probeDuration := fun _ => none
    fileSizeBytes := fun p => if p = outPath then some 1048576 else none
    trimProc := ⟨[], 0⟩
    pass1Proc := ⟨[], 0⟩
    pass2Proc := ⟨[], 0⟩
    moveOk := true }

/-- C7 witness world: the trimmed scratch file measures 1 MB, under the
10 MB budget, so the cheap move path is taken. -/
def envC7w : Env :=
  { probeDuration := fun p => if p = tempName inPath then some 5 else none
    fileSizeBytes := fun p => if p = tempName inPath then some 1048576 else none
    trimProc := ⟨[], 0⟩
    pass1Proc := ⟨[], 0⟩
    pass2Proc := ⟨[], 0⟩
    moveOk := true }

/-- C9 witness world (its content is irrelevant: the claim holds for
every environment). -/
def envC9w : Env :=
  { probeDuration := fun _ => none
    fileSizeBytes := fun _ => none
    trimProc := ⟨[], 0⟩
    pass1Proc := ⟨[], 0⟩
    pass2Proc := ⟨[], 0⟩
    moveOk := true }

/-- A sample pass-1 invocation for the C3 witness. -/
def invC3w : Invocation := .encodePass inPath (some 800) 1 none

/-! ## Helper lemmas -/

/-- Unfolding of the cleanup loop: survivors are exactly the entries
that are `other`-kind or whose deletion fails, and the error log names
exactly the failing file/directory entries. -/
theorem cleanupLoop_spec : ∀ listing : List DirEntry,
    (cleanupLoop listing).1 =
      listing.filter (fun e => e.kind == EntryKind.other || e.deleteFails) ∧
    (cleanupLoop listing).2 =
      (listing.filter
        (fun e => !(e.kind == EntryKind.other) && e.deleteFails)).map
        DirEntry.name := by
  intro listing
  induction listing with
  | nil => exact ⟨rfl, rfl⟩
  | cons e rest ih =>
      cases hk : e.kind <;> cases hf : e.deleteFails <;>
        simp [cleanupLoop, hk, hf, List.filter_cons, ih.1, ih.2]

/-- Evaluate the truncation `pyInt` on a nonnegative rational. -/
theorem pyInt_eval (q : ℚ) (n : ℤ) (h0 : 0 ≤ q) (h1 : (n : ℚ) ≤ q)
    (h2 : q < n + 1) : pyInt q = n := by
  rw [pyInt, if_neg (not_lt.mpr h0)]
  exact Int.floor_eq_iff.mpr ⟨h1, by exact_mod_cast h2⟩

/-- Half-even rounding of an integer is the integer itself. -/
theorem roundHalfEven_int (n : ℤ) : roundHalfEven (n : ℚ) = n := by
  unfold roundHalfEven
  rw [Int.floor_intCast, sub_self, if_pos (by norm_num)]

/-- A file of exactly 1048576 bytes measures 1.0 MB. -/
theorem get_file_size_1MB : get_file_size 1048576 = 1 := by
  unfold get_file_size
  rw [show ((1048576 : ℕ) : ℚ) / (1024 * 1024) * 10 = ((10 : ℤ) : ℚ) by
    norm_num]
  rw [roundHalfEven_int]
  norm_num

/-- Dispatch of `parse_time_to_seconds` on three float parts. -/
theorem parse3_eq (t : List Char) (a b c : ℚ)
    (h : floatParts t = some [a, b, c]) :
    parse_time_to_seconds t = a * 3600 + b * 60 + c := by
  unfold parse_time_to_seconds
  rw [h]

/-- Dispatch of `parse_time_to_seconds` on two float parts. -/
theorem parse2_eq (t : List Char) (a b : ℚ) (h : floatParts t = some [a, b]) :
    parse_time_to_seconds t = a * 60 + b := by
  unfold parse_time_to_seconds
  rw [h]

/-- Dispatch of `parse_time_to_seconds` on one float part. -/
theorem parse1_eq (t : List Char) (a : ℚ) (h : floatParts t = some [a]) :
    parse_time_to_seconds t = a := by
  unfold parse_time_to_seconds
  rw [h]

/-- Dispatch of `parse_time_to_seconds` on a float failure. -/
theorem parse0_eq (t : List Char) (h : floatParts t = none) :
    parse_time_to_seconds t = 0 := by
  unfold parse_time_to_seconds
  rw [h]

/-- Float parts of the token `"1:2:3"`. -/
theorem floatParts_123 : floatParts "1:2:3".data = some [1, 2, 3] := by
  rw [show floatParts "1:2:3".data = some [reprVal (false, [1], []),
    reprVal (false, [2], []), reprVal (false, [3], [])] from rfl]
  norm_num [reprVal, natOfDigits, fracOfDigits, List.foldl_cons, List.foldl_nil,
    List.foldr_cons, List.foldr_nil]

/-- Parse of the timestamp `"00:00:01.00"`. -/
theorem parse_tok1 : parse_time_to_seconds "00:00:01.00".data = 1 := by
  rw [parse3_eq "00:00:01.00".data (reprVal (false, [0, 0], []))
    (reprVal (false, [0, 0], [])) (reprVal (false, [0, 1], [0, 0])) rfl]
  norm_num [reprVal, natOfDigits, fracOfDigits, List.foldl_cons, List.foldl_nil,
    List.foldr_cons, List.foldr_nil]

/-- Parse of the timestamp `"00:00:02.00"`. -/
theorem parse_tok2 : parse_time_to_seconds "00:00:02.00".data = 2 := by
  rw [parse3_eq "00:00:02.00".data (reprVal (false, [0, 0], []))
    (reprVal (false, [0, 0], [])) (reprVal (false, [0, 2], [0, 0])) rfl]
  norm_num [reprVal, natOfDigits, fracOfDigits, List.foldl_cons, List.foldl_nil,
    List.foldr_cons, List.foldr_nil]

/-- One emitting loop iteration, given the evaluated percent. -/
theorem lineUpdate_emit (pn : ℕ) (d : ℚ) (last : ℤ) (line tok : List Char)
    (v : ℤ) (htok : extractTimeToken line = some (some tok)) (hd : 0 < d)
    (hv : pyInt (linePercent pn d tok) = v) (hlt : last < v) :
    lineUpdate pn d last line = some (v, some v) := by
  unfold lineUpdate
  rw [htok]
  show (if 0 < d then
      if last < pyInt (linePercent pn d tok) then
        some (pyInt (linePercent pn d tok), some (pyInt (linePercent pn d tok)))
      else some (last, none)
    else some (last, none)) = some (v, some v)
  rw [if_pos hd, hv, if_pos hlt]

/-- Truncation bounds: a rational below a nonnegative integer bound
truncates below that bound. -/
theorem pyInt_le (q : ℚ) (c : ℤ) (hc : 0 ≤ c) (h : q ≤ (c : ℚ)) :
    pyInt q ≤ c := by
  unfold pyInt
  split
  · next hq =>
      have h0 : (0 : ℤ) ≤ ⌊-q⌋ := Int.floor_nonneg.mpr (by linarith)
      omega
  · next hq =>
      calc ⌊q⌋ ≤ ⌊(c : ℚ)⌋ := Int.floor_mono h
        _ = c := Int.floor_intCast c

/-- The computed per-line percent never exceeds the pass cap. -/
theorem linePercent_le (pn : ℕ) (d : ℚ) (tok : List Char) :
    linePercent pn d tok ≤ ((passCap pn : ℤ) : ℚ) := by
  unfold linePercent passCap
  by_cases h : pn = 2
  · rw [if_pos h, if_pos h]
    push_cast
    exact min_le_right _ _
  · rw [if_neg h, if_neg h]
    push_cast
    exact min_le_right _ _

/-- The pass cap is nonnegative. -/
theorem passCap_nonneg (pn : ℕ) : 0 ≤ passCap pn := by
  unfold passCap
  split <;> norm_num

/-- A loop iteration over a line with no `time=` marker: no emission. -/
theorem lineUpdate_notime (pn : ℕ) (d : ℚ) (last : ℤ) (line : List Char)
    (htok : extractTimeToken line = none) :
    lineUpdate pn d last line = some (last, none) := by
  unfold lineUpdate
  rw [htok]

/-- A loop iteration whose `time=` marker has no token raises. -/
theorem lineUpdate_raise (pn : ℕ) (d : ℚ) (last : ℤ) (line : List Char)
    (htok : extractTimeToken line = some none) :
    lineUpdate pn d last line = none := by
  unfold lineUpdate
  rw [htok]

/-- A loop iteration whose percent does not exceed `last_progress`
forwards nothing. -/
theorem lineUpdate_noemit (pn : ℕ) (d : ℚ) (last : ℤ) (line tok : List Char)
    (htok : extractTimeToken line = some (some tok)) (hd : 0 < d)
    (hnlt : ¬ last < pyInt (linePercent pn d tok)) :
    lineUpdate pn d last line = some (last, none) := by
  unfold lineUpdate
  rw [htok]
  show (if 0 < d then
      if last < pyInt (linePercent pn d tok) then
        some (pyInt (linePercent pn d tok), some (pyInt (linePercent pn d tok)))
      else some (last, none)
    else some (last, none)) = some (last, none)
  rw [if_pos hd, if_neg hnlt]

/-- A loop iteration with a nonpositive duration forwards nothing. -/
theorem lineUpdate_nodur (pn : ℕ) (d : ℚ) (last : ℤ) (line tok : List Char)
    (htok : extractTimeToken line = some (some tok)) (hd : ¬ 0 < d) :
    lineUpdate pn d last line = some (last, none) := by
  unfold lineUpdate
  rw [htok]
  show (if 0 < d then
      if last < pyInt (linePercent pn d tok) then
        some (pyInt (linePercent pn d tok), some (pyInt (linePercent pn d tok)))
      else some (last, none)
    else some (last, none)) = some (last, none)
  rw [if_neg hd]

/-- Case analysis of one loop iteration: either nothing is emitted and
`last_progress` is unchanged, or the emitted value equals the new
`last_progress`, strictly exceeds the old one, and respects the cap. -/
theorem lineUpdate_spec (pn : ℕ) (d : ℚ) (last : ℤ) (l : List Char)
    (last' : ℤ) (e : Option ℤ)
    (h : lineUpdate pn d last l = some (last', e)) :
    (e = none ∧ last' = last) ∨
    (∃ v, e = some v ∧ last' = v ∧ last < v ∧ v ≤ passCap pn) := by
  rcases htok : extractTimeToken l with _ | otok
  · rw [lineUpdate_notime pn d last l htok] at h
    injection h with h'
    injection h' with h1 h2
    exact Or.inl ⟨h2.symm, h1.symm⟩
  · rcases otok with _ | tok
    · rw [lineUpdate_raise pn d last l htok] at h
      exact Option.noConfusion h
    · by_cases hd : 0 < d
      · by_cases hlt : last < pyInt (linePercent pn d tok)
        · rw [lineUpdate_emit pn d last l tok (pyInt (linePercent pn d tok))
            htok hd rfl hlt] at h
          injection h with h'
          injection h' with h1 h2
          refine Or.inr ⟨pyInt (linePercent pn d tok), h2.symm, h1.symm, hlt, ?_⟩
          exact pyInt_le _ _ (passCap_nonneg pn) (linePercent_le pn d tok)
        · rw [lineUpdate_noemit pn d last l tok htok hd hlt] at h
          injection h with h'
          injection h' with h1 h2
          exact Or.inl ⟨h2.symm, h1.symm⟩
      · rw [lineUpdate_nodur pn d last l tok htok hd] at h
        injection h with h'
        injection h' with h1 h2
        exact Or.inl ⟨h2.symm, h1.symm⟩

/-- Invariant of the stderr loop: the emitted values form a strictly
increasing chain starting above the incoming `last_progress`, all capped
by the pass cap, and on normal exit `last_progress` equals the last
emitted value (or is unchanged when nothing was emitted). -/
theorem passLoop_spec (pn : ℕ) (d : ℚ) :
    ∀ (lines : List (List Char)) (last : ℤ),
    List.Chain' (· < ·) (last :: (passLoop pn d last lines).1) ∧
    (∀ v ∈ (passLoop pn d last lines).1, v ≤ passCap pn) ∧
    (∀ l', (passLoop pn d last lines).2 = some l' →
      l' = (passLoop pn d last lines).1.getLastD last) := by
  intro lines
  induction lines with
  | nil =>
      intro last
      refine ⟨List.chain'_singleton last, by simp [passLoop], ?_⟩
      intro l' h
      simp [passLoop] at h ⊢
      exact h.symm
  | cons l rest ih =>
      intro last
      rcases hlu : lineUpdate pn d last l with _ | ⟨lastN, e⟩
      · refine ⟨?_, ?_, ?_⟩
        · rw [show (passLoop pn d last (l :: rest)).1 = [] by
            simp [passLoop, hlu]]
          exact List.chain'_singleton last
        · intro v hv
          rw [show (passLoop pn d last (l :: rest)).1 = [] by
            simp [passLoop, hlu]] at hv
          exact absurd hv (List.not_mem_nil v)
        · intro l' h
          rw [show (passLoop pn d last (l :: rest)).2 = none by
            simp [passLoop, hlu]] at h
          exact Option.noConfusion h
      · rcases lineUpdate_spec pn d last l lastN e hlu with
          ⟨hE, hL⟩ | ⟨v, hE, hL, hlt, hle⟩
        · rw [hE, hL] at hlu
          have h1 : (passLoop pn d last (l :: rest)).1 =
              (passLoop pn d last rest).1 := by
            simp [passLoop, hlu, Option.toList]
          have h2 : (passLoop pn d last (l :: rest)).2 =
              (passLoop pn d last rest).2 := by
            simp [passLoop, hlu]
          rw [h1, h2]
          exact ih last
        · rw [hE, hL] at hlu
          have h1 : (passLoop pn d last (l :: rest)).1 =
              v :: (passLoop pn d v rest).1 := by
            simp [passLoop, hlu, Option.toList]
          have h2 : (passLoop pn d last (l :: rest)).2 =
              (passLoop pn d v rest).2 := by
            simp [passLoop, hlu]
          rw [h1, h2]
          obtain ⟨ch, hb, hl⟩ := ih v
          refine ⟨List.Chain'.cons hlt ch, ?_, ?_⟩
          · intro w hw
            rcases List.mem_cons.mp hw with rfl | hw'
            · exact hle
            · exact hb w hw'
          · intro l' h
            rw [List.getLastD_cons]
            exact hl l' h

/-- `progressValues` distributes over `++`. -/
theorem progressValues_append (a b : List Event) :
    progressValues (a ++ b) = progressValues a ++ progressValues b :=
  List.filterMap_append a b _

/-- `progressValues` recovers the values of a pure progress block. -/
theorem progressValues_map (vs : List ℤ) :
    progressValues (vs.map Event.progress) = vs := by
  induction vs with
  | nil => rfl
  | cons v rest ih => simp [progressValues, List.filterMap_cons] at ih ⊢; exact ih

/-- `progressValues` of the empty trace. -/
theorem progressValues_nil : progressValues [] = [] := rfl

/-- An engine invocation carries no percent. -/
theorem progressValues_cons_invoked (i : Invocation) (l : List Event) :
    progressValues (Event.invoked i :: l) = progressValues l := rfl

/-- A progress emission contributes its percent. -/
theorem progressValues_cons_progress (n : ℤ) (l : List Event) :
    progressValues (Event.progress n :: l) = n :: progressValues l := rfl

/-- A move carries no percent. -/
theorem progressValues_cons_moved (a b : List Char) (l : List Event) :
    progressValues (Event.moved a b :: l) = progressValues l := rfl

/-- A done signal carries no percent. -/
theorem progressValues_cons_done (a : List Char) (q : ℚ) (l : List Event) :
    progressValues (Event.done a q :: l) = progressValues l := rfl

/-- An error signal carries no percent. -/
theorem progressValues_cons_error (m : String) (l : List Event) :
    progressValues (Event.error m :: l) = progressValues l := rfl

/-- A cleanup marker carries no percent. -/
theorem progressValues_cons_cleanup (l : List Event) :
    progressValues (Event.cleanupRun :: l) = progressValues l := rfl

/-- Pass-1 trace shape: some strictly increasing values above the
incoming `last_progress`, all at most 50, then — when the loop finishes —
a final explicit 50 with `last_progress` set to 50. -/
theorem rfc_one (inv : Invocation) (d : ℚ) (p : Proc) (last : ℤ) :
    ∃ vs : List ℤ, List.Chain' (· < ·) (last :: vs) ∧ (∀ v ∈ vs, v ≤ 50) ∧
      (((run_ffmpeg_command inv 1 d p last).2 = none ∧
          progressValues (run_ffmpeg_command inv 1 d p last).1 = vs) ∨
        ((run_ffmpeg_command inv 1 d p last).2 = some 50 ∧
          progressValues (run_ffmpeg_command inv 1 d p last).1 = vs ++ [50])) := by
  rcases heq : passLoop 1 d last p.stderrLines with ⟨vs, r⟩
  obtain ⟨ch, hb, _⟩ := passLoop_spec 1 d p.stderrLines last
  rw [heq] at ch hb
  refine ⟨vs, ch, ?_, ?_⟩
  · intro v hv
    have := hb v hv
    simpa [passCap] using this
  · unfold run_ffmpeg_command
    rw [heq]
    rcases r with _ | l'
    · left
      exact ⟨rfl, by
        simp [progressValues_append, progressValues_map, progressValues_cons_invoked, progressValues_cons_progress, progressValues_nil]⟩
    · right
      constructor
      · simp
      · simp [progressValues_append, progressValues_map, progressValues_cons_invoked, progressValues_cons_progress, progressValues_nil]

/-- Pass-2 trace shape: an explicit 50 first, then strictly increasing
values above the incoming `last_progress`, all at most 100; on normal
exit `last_progress` is the last emitted value (or unchanged). -/
theorem rfc_two (inv : Invocation) (d : ℚ) (p : Proc) (last : ℤ) :
    ∃ vs : List ℤ, List.Chain' (· < ·) (last :: vs) ∧ (∀ v ∈ vs, v ≤ 100) ∧
      progressValues (run_ffmpeg_command inv 2 d p last).1 = 50 :: vs ∧
      (∀ l', (run_ffmpeg_command inv 2 d p last).2 = some l' →
        l' = vs.getLastD last) := by
  rcases heq : passLoop 2 d last p.stderrLines with ⟨vs, r⟩
  obtain ⟨ch, hb, hl⟩ := passLoop_spec 2 d p.stderrLines last
  rw [heq] at ch hb hl
  refine ⟨vs, ch, ?_, ?_, ?_⟩
  · intro v hv
    have := hb v hv
    simpa [passCap] using this
  · unfold run_ffmpeg_command
    rw [heq]
    rcases r with _ | l'
    · simp [progressValues_append, progressValues_map, progressValues_cons_invoked, progressValues_cons_progress, progressValues_nil]
    · simp [progressValues_append, progressValues_map, progressValues_cons_invoked, progressValues_cons_progress, progressValues_nil]
  · intro l' h
    unfold run_ffmpeg_command at h
    rw [heq] at h
    rcases r with _ | l''
    · simp at h
    · simp at h
      rw [← h]
      exact hl l'' rfl

/-- Gluing the two pass segments: pass-1 values (strictly ascending
from 0, capped at 50) followed by the explicit 50, the pass-2 explicit
50 and pass-2 values (strictly ascending from 50, capped at 100) form a
non-decreasing sequence within `[0, 100]`. -/
theorem chain_glue (vs1 vs2 : List ℤ)
    (h1 : List.Chain' (· < ·) ((0 : ℤ) :: vs1)) (hb1 : ∀ v ∈ vs1, v ≤ 50)
    (h2 : List.Chain' (· < ·) ((50 : ℤ) :: vs2)) (hb2 : ∀ v ∈ vs2, v ≤ 100) :
    List.Chain' (· ≤ ·) ((0 : ℤ) :: ((vs1 ++ [50]) ++ 50 :: vs2)) ∧
    (∀ v ∈ (vs1 ++ [50]) ++ 50 :: vs2, (0 : ℤ) ≤ v ∧ v ≤ 100) := by
  have hpw1 : ∀ v ∈ vs1, (0 : ℤ) < v :=
    (List.pairwise_cons.mp (List.chain'_iff_pairwise.mp h1)).1
  have hpw2 : ∀ v ∈ vs2, (50 : ℤ) < v :=
    (List.pairwise_cons.mp (List.chain'_iff_pairwise.mp h2)).1
  constructor
  · rw [show (0 : ℤ) :: ((vs1 ++ [50]) ++ 50 :: vs2) =
      ((0 : ℤ) :: vs1) ++ ([50] ++ 50 :: vs2) by simp]
    refine List.Chain'.append (h1.imp fun a b hab => le_of_lt hab) ?_ ?_
    · show List.Chain' (· ≤ ·) ((50 : ℤ) :: 50 :: vs2)
      exact List.Chain'.cons (le_refl (50 : ℤ))
        (h2.imp fun a b hab => le_of_lt hab)
    · intro x hx y hy
      have hy' : (50 : ℤ) = y := by simpa using hy
      subst hy'
      rcases List.mem_getLast?_eq_getLast hx with ⟨hne, hxeq⟩
      have hmem : x ∈ (0 : ℤ) :: vs1 := hxeq ▸ List.getLast_mem hne
      rcases List.mem_cons.mp hmem with rfl | hv
      · norm_num
      · exact hb1 x hv
  · intro v hv
    rcases List.mem_append.mp hv with hv1 | hv2
    · rcases List.mem_append.mp hv1 with hva | hvb
      · exact ⟨le_of_lt (hpw1 v hva), le_trans (hb1 v hva) (by norm_num)⟩
      · have hv50 : v = 50 := by simpa using hvb
        subst hv50
        norm_num
    · rcases List.mem_cons.mp hv2 with rfl | hvc
      · norm_num
      · exact ⟨le_trans (by norm_num) (le_of_lt (hpw2 v hvc)), hb2 v hvc⟩

/-- The Trim Executor emits no percent values. -/
theorem trim_pv (env : Env) (j : Job) (out : List Char) :
    progressValues (trim_video env j out).1 = [] := by
  unfold trim_video
  split
  · split <;> rfl
  · rfl

/-- Chain invariant of the Two-Pass Encoder entered with
`last_progress = 0`: the forwarded percents are non-decreasing and lie
in `[0, 100]`. -/
theorem compress_chain (env : Env) (j : Job) (ia : Option (List Char))
    (ba : Option ℚ) :
    List.Chain' (· ≤ ·)
      ((0 : ℤ) :: progressValues (compress_video env j ia ba 0).events) ∧
    (∀ v ∈ progressValues (compress_video env j ia ba 0).events,
      (0 : ℤ) ≤ v ∧ v ≤ 100) := by
  unfold compress_video
  split
  · exact ⟨List.chain'_singleton 0, by simp [progressValues_nil]⟩
  · next d heqp =>
      split
      · next evs1 heq1 =>
          obtain ⟨vs, ch, hb, hcase⟩ := rfc_one
            (.encodePass (ia.getD j.input_file) (pyOrQ ba j.target_bitrate) 1
              none) d env.pass1Proc 0
          rw [heq1] at hcase
          rcases hcase with ⟨_, hpv⟩ | ⟨habs, _⟩
          · have hpv' : progressValues evs1 = vs := hpv
            constructor
            · show List.Chain' (· ≤ ·) ((0 : ℤ) :: progressValues evs1)
              rw [hpv']
              exact ch.imp fun a b hab => le_of_lt hab
            · intro v hv
              have hv' : v ∈ vs := by
                rw [← hpv']
                exact hv
              have h0 : (0 : ℤ) < v :=
                (List.pairwise_cons.mp (List.chain'_iff_pairwise.mp ch)).1 v hv'
              exact ⟨le_of_lt h0, le_trans (hb v hv') (by norm_num)⟩
          · exact Option.noConfusion habs
      · next evs1 l1 heq1 =>
          obtain ⟨vs1, ch1, hb1, hcase⟩ := rfc_one
            (.encodePass (ia.getD j.input_file) (pyOrQ ba j.target_bitrate) 1
              none) d env.pass1Proc 0
          rw [heq1] at hcase
          rcases hcase with ⟨habs, _⟩ | ⟨hl1, hpv1⟩
          · exact Option.noConfusion habs
          · have hl1' : some l1 = some 50 := hl1
            injection hl1' with hl1''
            subst hl1''
            have hpv1' : progressValues evs1 = vs1 ++ [50] := hpv1
            split
            · next evs2 heq2 =>
                obtain ⟨vs2, ch2, hb2, hpv2, _⟩ := rfc_two
                  (.encodePass (ia.getD j.input_file)
                    (pyOrQ ba j.target_bitrate) 2 (some j.output_file)) d
                  env.pass2Proc 50
                rw [heq2] at hpv2
                have hpv2' : progressValues evs2 = 50 :: vs2 := hpv2
                obtain ⟨hch, hbd⟩ := chain_glue vs1 vs2 ch1 hb1 ch2 hb2
                constructor
                · show List.Chain' (· ≤ ·)
                    ((0 : ℤ) :: progressValues (evs1 ++ evs2))
                  rw [progressValues_append, hpv1', hpv2']
                  exact hch
                · intro v hv
                  apply hbd
                  rw [← hpv1', ← hpv2', ← progressValues_append]
                  exact hv
            · next evs2 l2 heq2 =>
                obtain ⟨vs2, ch2, hb2, hpv2, _⟩ := rfc_two
                  (.encodePass (ia.getD j.input_file)
                    (pyOrQ ba j.target_bitrate) 2 (some j.output_file)) d
                  env.pass2Proc 50
                rw [heq2] at hpv2
                have hpv2' : progressValues evs2 = 50 :: vs2 := hpv2
                obtain ⟨hch, hbd⟩ := chain_glue vs1 vs2 ch1 hb1 ch2 hb2
                constructor
                · show List.Chain' (· ≤ ·)
                    ((0 : ℤ) :: progressValues (evs1 ++ evs2))
                  rw [progressValues_append, hpv1', hpv2']
                  exact hch
                · intro v hv
                  apply hbd
                  rw [← hpv1', ← hpv2', ← progressValues_append]
                  exact hv

/-- Chain invariant of the whole pipeline body. -/
theorem pipeline_chain (env : Env) (j : Job) :
    List.Chain' (· ≤ ·)
      ((0 : ℤ) :: progressValues (pipeline env j).events) ∧
    (∀ v ∈ progressValues (pipeline env j).events, (0 : ℤ) ≤ v ∧ v ≤ 100) := by
  unfold pipeline
  split
  · unfold compress_trim_video
    split
    · next tevs m heqt =>
        have hpvt : progressValues tevs = [] := by
          have h := trim_pv env j (tempName j.input_file)
          rw [heqt] at h
          exact h
        exact ⟨by simp [hpvt], by simp [hpvt]⟩
    · next tevs heqt =>
        have hpvt : progressValues tevs = [] := by
          have h := trim_pv env j (tempName j.input_file)
          rw [heqt] at h
          exact h
        split
        · exact ⟨by simp [hpvt], by simp [hpvt]⟩
        · split
          · split
            · exact ⟨by simp [progressValues_append, hpvt,
                progressValues_cons_moved, progressValues_nil],
                by simp [progressValues_append, hpvt,
                  progressValues_cons_moved, progressValues_nil]⟩
            · exact ⟨by simp [hpvt], by simp [hpvt]⟩
          · split
            · exact ⟨by simp [hpvt], by simp [hpvt]⟩
            · next bitrate heqb =>
                obtain ⟨hch, hbd⟩ := compress_chain env j
                  (some (tempName j.input_file)) (some bitrate)
                constructor
                · show List.Chain' (· ≤ ·) ((0 : ℤ) :: progressValues
                    (tevs ++ (compress_video env j
                      (some (tempName j.input_file)) (some bitrate) 0).events))
                  rw [progressValues_append, hpvt, List.nil_append]
                  exact hch
                · intro v hv
                  apply hbd
                  have hv' : v ∈ progressValues
                      (tevs ++ (compress_video env j
                        (some (tempName j.input_file))
                        (some bitrate) 0).events) := hv
                  rw [progressValues_append, hpvt, List.nil_append] at hv'
                  exact hv'
  · split
    · exact compress_chain env j none none
    · split
      · next tevs m heqt =>
          have hpvt : progressValues tevs = [] := by
            have h := trim_pv env j j.output_file
            rw [heqt] at h
            exact h
          exact ⟨by simp [hpvt], by simp [hpvt]⟩
      · next tevs heqt =>
          have hpvt : progressValues tevs = [] := by
            have h := trim_pv env j j.output_file
            rw [heqt] at h
            exact h
          constructor
          · show List.Chain' (· ≤ ·)
              ((0 : ℤ) :: progressValues (tevs ++ [Event.progress 100]))
            rw [progressValues_append, hpvt, List.nil_append]
            simp [progressValues_cons_progress, progressValues_nil]
          · intro v hv
            have hv' : v ∈ progressValues (tevs ++ [Event.progress 100]) := hv
            rw [progressValues_append, hpvt, List.nil_append] at hv'
            simp [progressValues_cons_progress, progressValues_nil] at hv'
            subst hv'
            norm_num

/-- Chain invariant of a whole job run: the forwarded percents are
non-decreasing and lie in `[0, 100]`. -/
theorem run_chain (env : Env) (j : Job) :
    List.Chain' (· ≤ ·) ((0 : ℤ) :: progressValues (run env j).1) ∧
    (∀ v ∈ progressValues (run env j).1, (0 : ℤ) ≤ v ∧ v ≤ 100) := by
  obtain ⟨ch, hb⟩ := pipeline_chain env j
  unfold run
  split
  · constructor
    · show List.Chain' (· ≤ ·) ((0 : ℤ) :: progressValues
        ((pipeline env j).events ++ [Event.error _, Event.cleanupRun]))
      rw [progressValues_append]
      simpa [progressValues_cons_error, progressValues_cons_cleanup,
        progressValues_nil] using ch
    · intro v hv
      apply hb
      have hv' : v ∈ progressValues ((pipeline env j).events ++
          [Event.error _, Event.cleanupRun]) := hv
      rw [progressValues_append] at hv'
      simpa [progressValues_cons_error, progressValues_cons_cleanup,
        progressValues_nil] using hv'
  · split
    · exact ⟨ch, hb⟩
    · constructor
      · show List.Chain' (· ≤ ·) ((0 : ℤ) :: progressValues
          ((pipeline env j).events ++ [Event.done _ _, Event.cleanupRun]))
        rw [progressValues_append]
        simpa [progressValues_cons_done, progressValues_cons_cleanup,
          progressValues_nil] using ch
      · intro v hv
        apply hb
        have hv' : v ∈ progressValues ((pipeline env j).events ++
            [Event.done _ _, Event.cleanupRun]) := hv
        rw [progressValues_append] at hv'
        simpa [progressValues_cons_done, progressValues_cons_cleanup,
          progressValues_nil] using hv'

/-- Events of the explicit pass-2 prefix are benign. -/
theorem benign_pre (pn : ℕ) (e : Event)
    (h : e ∈ (if pn = 2 then [Event.progress 50] else [])) :
    benignB e = true := by
  revert h
  split <;> intro h
  · have he : e = Event.progress 50 := by simpa using h
    subst he
    rfl
  · exact absurd h (List.not_mem_nil e)

/-- Mapped progress events are benign. -/
theorem benign_map (vs : List ℤ) (e : Event) (h : e ∈ vs.map Event.progress) :
    benignB e = true := by
  obtain ⟨n, _, rfl⟩ := List.mem_map.mp h
  rfl

/-- Everything `run_ffmpeg_command` emits is benign (invocations and
progress only). -/
theorem rfc_benign (inv : Invocation) (pn : ℕ) (d : ℚ) (p : Proc) (last : ℤ) :
    ∀ e ∈ (run_ffmpeg_command inv pn d p last).1, benignB e = true := by
  unfold run_ffmpeg_command
  split
  · intro e he
    rcases List.mem_cons.mp he with rfl | he'
    · rfl
    rcases List.mem_append.mp he' with h1 | h2
    · exact benign_pre pn e h1
    · exact benign_map _ e h2
  · split
    · intro e he
      rcases List.mem_cons.mp he with rfl | he'
      · rfl
      rcases List.mem_append.mp he' with h1 | h2
      · rcases List.mem_append.mp h1 with h1a | h1b
        · exact benign_pre pn e h1a
        · exact benign_map _ e h1b
      · have he2 : e = Event.progress 50 := by simpa using h2
        subst he2
        rfl
    · intro e he
      rcases List.mem_cons.mp he with rfl | he'
      · rfl
      rcases List.mem_append.mp he' with h1 | h2
      · exact benign_pre pn e h1
      · exact benign_map _ e h2

/-- Everything the Trim Executor emits is benign. -/
theorem trim_benign (env : Env) (j : Job) (out : List Char) :
    ∀ e ∈ (trim_video env j out).1, benignB e = true := by
  unfold trim_video
  split
  · split <;>
      (intro e he
       have he' := List.mem_singleton.mp he
       subst he'
       rfl)
  · intro e he
    exact absurd he (List.not_mem_nil e)

/-- Everything the Two-Pass Encoder emits is benign. -/
theorem compress_benign (env : Env) (j : Job) (ia : Option (List Char))
    (ba : Option ℚ) (last : ℤ) :
    ∀ e ∈ (compress_video env j ia ba last).events, benignB e = true := by
  unfold compress_video
  split
  · intro e he
    exact absurd he (List.not_mem_nil e)
  · next d heqp =>
      split
      · next evs1 heq1 =>
          intro e he
          have h := rfc_benign (.encodePass (ia.getD j.input_file)
            (pyOrQ ba j.target_bitrate) 1 none) 1 d env.pass1Proc last
          rw [heq1] at h
          exact h e he
      · next evs1 l1 heq1 =>
          split
          · next evs2 heq2 =>
              intro e he
              rcases List.mem_append.mp he with h1 | h2
              · have h := rfc_benign (.encodePass (ia.getD j.input_file)
                  (pyOrQ ba j.target_bitrate) 1 none) 1 d env.pass1Proc last
                rw [heq1] at h
                exact h e h1
              · have h := rfc_benign (.encodePass (ia.getD j.input_file)
                  (pyOrQ ba j.target_bitrate) 2 (some j.output_file)) 2 d
                  env.pass2Proc l1
                rw [heq2] at h
                exact h e h2
          · next evs2 l2 heq2 =>
              intro e he
              rcases List.mem_append.mp he with h1 | h2
              · have h := rfc_benign (.encodePass (ia.getD j.input_file)
                  (pyOrQ ba j.target_bitrate) 1 none) 1 d env.pass1Proc last
                rw [heq1] at h
                exact h e h1
              · have h := rfc_benign (.encodePass (ia.getD j.input_file)
                  (pyOrQ ba j.target_bitrate) 2 (some j.output_file)) 2 d
                  env.pass2Proc l1
                rw [heq2] at h
                exact h e h2

/-- Everything the trim-and-check pipeline emits is benign. -/
theorem ctv_benign (env : Env) (j : Job) (ts : ℚ) (last : ℤ) :
    ∀ e ∈ (compress_trim_video env j ts last).events, benignB e = true := by
  unfold compress_trim_video
  split
  · next tevs m heqt =>
      intro e he
      have h := trim_benign env j (tempName j.input_file)
      rw [heqt] at h
      exact h e he
  · next tevs heqt =>
      have ht : ∀ e ∈ tevs, benignB e = true := by
        have h := trim_benign env j (tempName j.input_file)
        rw [heqt] at h
        exact h
      split
      · exact ht
      · split
        · split
          · intro e he
            rcases List.mem_append.mp he with h1 | h2
            · exact ht e h1
            · have he' : e = Event.moved (tempName j.input_file) j.output_file := by
                simpa using h2
              subst he'
              rfl
          · exact ht
        · split
          · exact ht
          · next bitrate heqb =>
              intro e he
              rcases List.mem_append.mp he with h1 | h2
              · exact ht e h1
              · exact compress_benign env j (some (tempName j.input_file))
                  (some bitrate) last e h2

/-- Everything the pipeline body emits is benign: no terminal event and
no cleanup happens inside the `try` body. -/
theorem pipeline_benign (env : Env) (j : Job) :
    ∀ e ∈ (pipeline env j).events, benignB e = true := by
  unfold pipeline
  split
  · exact ctv_benign env j (j.target_size.getD 0) 0
  · split
    · exact compress_benign env j none none 0
    · split
      · next tevs m heqt =>
          intro e he
          have h := trim_benign env j j.output_file
          rw [heqt] at h
          exact h e he
      · next tevs heqt =>
          intro e he
          rcases List.mem_append.mp he with h1 | h2
          · have h := trim_benign env j j.output_file
            rw [heqt] at h
            exact h e h1
          · have he' : e = Event.progress 100 := by simpa using h2
            subst he'
            rfl

/-- A benign event is neither terminal nor the cleanup marker. -/
theorem benign_not_terminal (e : Event) (hbe : benignB e = true) :
    terminalB e = false ∧ e ≠ Event.cleanupRun := by
  cases e <;> simp [benignB, terminalB, isDoneB, isErrorB] at hbe ⊢

/-- When the window is complete but the trim subprocess fails, the
pipeline raises the trim error (in both branches that reach the Trim
Executor). -/
theorem pipeline_trim_fail (env : Env) (j : Job) (hW : hasWindow j = true)
    (hr : env.trimProc.returncode ≠ 0) :
    (pipeline env j).exn = some "Trimming failed." := by
  obtain ⟨s, hs⟩ : ∃ s, j.start_time = some s := by
    cases h : j.start_time
    · rw [hasWindow, h] at hW
      simp at hW
    · exact ⟨_, rfl⟩
  obtain ⟨t2, he⟩ : ∃ t2, j.end_time = some t2 := by
    cases h : j.end_time
    · rw [hasWindow, h] at hW
      simp at hW
    · exact ⟨_, rfl⟩
  have htv : ∀ out, trim_video env j out =
      ([Event.invoked (.trim j.input_file s (t2 - s) out)],
        some "Trimming failed.") := by
    intro out
    unfold trim_video
    rw [hs, he]
    show (if env.trimProc.returncode ≠ 0 then
        ([Event.invoked (.trim j.input_file s (t2 - s) out)],
          some "Trimming failed.")
      else ([Event.invoked (.trim j.input_file s (t2 - s) out)], none)) = _
    rw [if_pos hr]
  unfold pipeline
  cases hT : hasTarget j
  · rw [hW]
    simp only [Bool.and_true, Bool.false_eq_true, if_false]
    rw [htv j.output_file]
  · rw [hW]
    simp only [Bool.and_true, if_true]
    unfold compress_trim_video
    rw [htv (tempName j.input_file)]

/-- The Two-Pass Encoder's trace always starts with its invocation. -/
theorem rfc_cons (inv : Invocation) (pn : ℕ) (d : ℚ) (p : Proc) (last : ℤ) :
    ∃ t, (run_ffmpeg_command inv pn d p last).1 = Event.invoked inv :: t := by
  unfold run_ffmpeg_command
  split
  · exact ⟨_, rfl⟩
  · split
    · exact ⟨_, rfl⟩
    · exact ⟨_, rfl⟩

/-- Evaluation of `compress_video` when both passes complete. -/
theorem compress_video_eval (env : Env) (j : Job) (ia : Option (List Char))
    (ba : Option ℚ) (last : ℤ) (d : ℚ) (evs1 evs2 : List Event) (l1 l2 : ℤ)
    (hprobe : env.probeDuration (ia.getD j.input_file) = some d)
    (h1 : run_ffmpeg_command
      (.encodePass (ia.getD j.input_file) (pyOrQ ba j.target_bitrate) 1 none)
      1 d env.pass1Proc last = (evs1, some l1))
    (h2 : run_ffmpeg_command
      (.encodePass (ia.getD j.input_file) (pyOrQ ba j.target_bitrate) 2
        (some j.output_file)) 2 d env.pass2Proc l1 = (evs2, some l2)) :
    compress_video env j ia ba last = ⟨evs1 ++ evs2, l2, none⟩ := by
  unfold compress_video
  rw [hprobe]
  simp only [h1, h2]

/-- Evaluation of `run` on a compress-only job whose pipeline finishes
and whose output file can be measured. -/
theorem run_compress_eval (env : Env) (j : Job) (res : StepRes) (b : ℕ)
    (hT : hasTarget j = true) (hW : hasWindow j = false)
    (hcv : compress_video env j none none 0 = res) (hexn : res.exn = none)
    (hfs : env.fileSizeBytes j.output_file = some b) :
    run env j = (res.events ++
      [Event.done j.output_file (get_file_size b), Event.cleanupRun], none) := by
  unfold run pipeline
  rw [hT, hW]
  simp only [Bool.and_false, Bool.false_and, if_true, if_false, hcv, hexn, hfs,
    Bool.false_eq_true, ite_false, ite_true]

/-- The pass-2 percent of the C3 counterexample line. -/
theorem lineUpdate_c3 :
    lineUpdate 2 10 50 "frame=1 time=00:00:01.00 x".data = some (54, some 54) := by
  refine lineUpdate_emit 2 10 50 _ "00:00:01.00".data 54 rfl (by norm_num) ?_ (by norm_num)
  rw [linePercent, if_pos rfl, parse_tok1]
  rw [show min ((1 : ℚ) / (10 + 2) * 50) 50 = 25 / 6 by rw [min_def]; norm_num]
  rw [show min ((25 : ℚ) / 6 + 50) 100 = 325 / 6 by rw [min_def]; norm_num]
  exact pyInt_eval _ _ (by norm_num) (by norm_num) (by norm_num)

/-- The pass-2 percent of the C4 counterexample line. -/
theorem lineUpdate_c4 :
    lineUpdate 2 10 50 "frame=2 time=00:00:02.00 x".data = some (58, some 58) := by
  refine lineUpdate_emit 2 10 50 _ "00:00:02.00".data 58 rfl (by norm_num) ?_ (by norm_num)
  rw [linePercent, if_pos rfl, parse_tok2]
  rw [show min ((2 : ℚ) / (10 + 2) * 50) 50 = 25 / 3 by rw [min_def]; norm_num]
  rw [show min ((25 : ℚ) / 3 + 50) 100 = 175 / 3 by rw [min_def]; norm_num]
  exact pyInt_eval _ _ (by norm_num) (by norm_num) (by norm_num)

/-- A pass-1 emitting iteration used by the C4 witness. -/
theorem lineUpdate_w4 :
    lineUpdate 1 10 0 "frame=1 time=00:00:01.00 x".data = some (4, some 4) := by
  refine lineUpdate_emit 1 10 0 _ "00:00:01.00".data 4 rfl (by norm_num) ?_
    (by norm_num)
  rw [linePercent, if_neg (by norm_num), parse_tok1]
  rw [show min ((1 : ℚ) / (10 + 2) * 50) 50 = 25 / 6 by rw [min_def]; norm_num]
  exact pyInt_eval _ _ (by norm_num) (by norm_num) (by norm_num)

/-! ## Claims -/

/-- C1, counterexample.  Both encode-pass subprocesses exit with return
code 1, yet the job emits `done_signal` (success) and no error event:
`run_ffmpeg_command` never inspects the return code, so the claimed
`EncodePassFailed` failure does not exist in the code. -/
theorem c1_counterexample :
    envC1x.pass1Proc.returncode ≠ 0 ∧ envC1x.pass2Proc.returncode ≠ 0 ∧
    (run envC1x jobCompress).1.any isDoneB = true ∧
    (run envC1x jobCompress).1.any isErrorB = false := by
  decide

/-- C1, amended: the encode-pass return codes are unobservable — a run
against any pair of encode return codes equals the run against zero
return codes, so a failing encode pass alone can neither raise an error
nor block success; the trim subprocess's non-zero exit, by contrast,
always yields a terminal error event and no success event. -/
theorem c1_theorem :
    (∀ (env : Env) (j : Job) (r1 r2 : ℤ),
      run (withPassRets env r1 r2) j = run (withPassRets env 0 0) j) ∧
    (∀ (env : Env) (j : Job), hasWindow j = true →
      env.trimProc.returncode ≠ 0 →
      (run env j).1.any isErrorB = true ∧
      (run env j).1.any isDoneB = false) := by
  constructor
  · intro env j r1 r2
    rfl
  · intro env j hW hr
    have hexn := pipeline_trim_fail env j hW hr
    have hben := pipeline_benign env j
    unfold run
    split
    · next m heqx =>
        constructor
        · simp [List.any_append, isErrorB]
        · simp only [List.any_append, Bool.or_eq_false_iff]
          constructor
          · rw [List.any_eq_false]
            intro e he
            have hbe := hben e he
            cases e <;> simp [benignB, isDoneB] at hbe ⊢
          · rfl
    · next heqx =>
        rw [hexn] at heqx
        exact Option.noConfusion heqx

/-- C1, witness: a trim-only job whose trim subprocess exits 1 reports
an error event and no success event. -/
theorem c1_witness :
    (run envC1w jobTrimOnly).1.any isErrorB = true ∧
    (run envC1w jobTrimOnly).1.any isDoneB = false :=
  c1_theorem.2 envC1w jobTrimOnly rfl (by decide)

/-- C2, counterexample.  On the error path the terminal `error_signal`
is emitted strictly *before* artifact cleanup (source lines 116-117:
`error_signal.emit` then `cleanup_temp_files`), contradicting the claim
that cleanup precedes the terminal event. -/
theorem c2_counterexample :
    (run envC2x jobTrimOnly).1 =
      [Event.invoked (.trim inPath 0 5 outPath),
        Event.error "Error: Trimming failed.", Event.cleanupRun] ∧
    (run envC2x jobTrimOnly).1.findIdx isErrorB <
      (run envC2x jobTrimOnly).1.findIdx isCleanupB := by
  have h : run envC2x jobTrimOnly =
      ([Event.invoked (.trim inPath 0 5 outPath),
        Event.error "Error: Trimming failed.", Event.cleanupRun], none) := by
    norm_num [run, pipeline, hasTarget, hasWindow, trim_video, jobTrimOnly, envC2x]
    decide
  rw [show (run envC2x jobTrimOnly).1 =
    [Event.invoked (.trim inPath 0 5 outPath),
      Event.error "Error: Trimming failed.", Event.cleanupRun] by rw [h]]
  exact ⟨rfl, by decide⟩

/-- C2, amended: on every run where the pipeline raises, or it succeeds
and the output size query succeeds, exactly one terminal event is
emitted, it is emitted exactly once, no exception escapes — and artifact
cleanup runs immediately *after* the terminal event, not before it
(the source emits the signal first at lines 116-117 and 122-123). -/
theorem c2_theorem : ∀ (env : Env) (j : Job),
    ((pipeline env j).exn.isSome ∨ (env.fileSizeBytes j.output_file).isSome) →
    (run env j).2 = none ∧
    ∃ pre t, (run env j).1 = pre ++ [t, Event.cleanupRun] ∧
      terminalB t = true ∧
      ∀ e ∈ pre, terminalB e = false ∧ e ≠ Event.cleanupRun := by
  intro env j hyp
  have hben := pipeline_benign env j
  unfold run
  split
  · next m heqx =>
      refine ⟨rfl, (pipeline env j).events, Event.error ("Error: " ++ m),
        rfl, rfl, ?_⟩
      intro e he
      exact benign_not_terminal e (hben e he)
  · next heqx =>
      split
      · next heqf =>
          rcases hyp with h1 | h2
          · rw [heqx] at h1
            simp at h1
          · rw [heqf] at h2
            simp at h2
      · next b heqf =>
          refine ⟨rfl, (pipeline env j).events,
            Event.done j.output_file (get_file_size b), rfl, rfl, ?_⟩
          intro e he
          exact benign_not_terminal e (hben e he)

/-- C2, witness: the amended contract at a clean trim-only run whose
output file can be measured. -/
theorem c2_witness :
    (run envC2w jobTrimOnly).2 = none ∧
    ∃ pre t, (run envC2w jobTrimOnly).1 = pre ++ [t, Event.cleanupRun] ∧
      terminalB t = true ∧
      ∀ e ∈ pre, terminalB e = false ∧ e ≠ Event.cleanupRun :=
  c2_theorem envC2w jobTrimOnly (Or.inr rfl)

/-- C3, counterexample.  A two-pass encode whose pass-2 stderr reports
elapsed time 1 s out of a 10 s duration; the forwarded percents are
`[50, 50, 54]` and the value 100 is never emitted: nothing is emitted at
the termination of the pass-2 subprocess (the final explicit emission in
the source exists only for pass 1). -/
theorem c3_counterexample :
    progressValues (run envC3x jobCompress).1 = [50, 50, 54] ∧
    (100 : ℤ) ∉ progressValues (run envC3x jobCompress).1 ∧
    (run envC3x jobCompress).1.any isDoneB = true := by
  have hp1 : run_ffmpeg_command
      (.encodePass ((none : Option (List Char)).getD jobCompress.input_file)
        (pyOrQ none jobCompress.target_bitrate) 1 none) 1 10
      envC3x.pass1Proc 0 =
      ([Event.invoked (.encodePass ((none : Option (List Char)).getD
          jobCompress.input_file) (pyOrQ none jobCompress.target_bitrate) 1
          none), Event.progress 50], some 50) := by
    simp only [run_ffmpeg_command]
    rw [show envC3x.pass1Proc.stderrLines = [] from rfl]
    simp [passLoop]
  have hp2 : run_ffmpeg_command
      (.encodePass ((none : Option (List Char)).getD jobCompress.input_file)
        (pyOrQ none jobCompress.target_bitrate) 2 (some jobCompress.output_file))
      2 10 envC3x.pass2Proc 50 =
      ([Event.invoked (.encodePass ((none : Option (List Char)).getD
          jobCompress.input_file) (pyOrQ none jobCompress.target_bitrate) 2
          (some jobCompress.output_file)),
        Event.progress 50, Event.progress 54], some 54) := by
    simp only [run_ffmpeg_command]
    rw [show envC3x.pass2Proc.stderrLines =
      ["frame=1 time=00:00:01.00 x".data] from rfl]
    rw [show passLoop 2 10 50 ["frame=1 time=00:00:01.00 x".data] =
      ([54], some 54) by
        show (match lineUpdate 2 10 50 "frame=1 time=00:00:01.00 x".data with
          | none => ([], (none : Option ℤ))
          | some (last', e) =>
              (e.toList ++ (passLoop 2 10 last' []).1,
                (passLoop 2 10 last' []).2)) = ([54], some 54)
        rw [lineUpdate_c3]
        rfl]
    simp
  have hcv := compress_video_eval envC3x jobCompress none none 0 10 _ _ 50 54
    rfl hp1 hp2
  have hrun := run_compress_eval envC3x jobCompress _ 1048576 rfl rfl hcv rfl rfl
  have hv : progressValues (run envC3x jobCompress).1 = [50, 50, 54] := by
    rw [hrun]
    simp [progressValues]
  refine ⟨hv, ?_, ?_⟩
  · rw [hv]
    decide
  · rw [hrun]
    simp [isDoneB]

/-- C3, amended: pass 1 always emits an explicit final 50 at subprocess
exit and returns `last_progress = 50` (so 50 is reached before pass 2
begins); pass 2 begins with an explicit 50 immediately after its
invocation; but pass 2 emits nothing at its termination — with no
stderr lines its whole trace is just the invocation and the explicit 50,
whatever the return code. -/
theorem c3_theorem :
    (∀ (inv : Invocation) (d : ℚ) (p : Proc) (last : ℤ) (evs : List Event)
      (l' : ℤ), run_ffmpeg_command inv 1 d p last = (evs, some l') →
      l' = 50 ∧ evs.getLast? = some (Event.progress 50)) ∧
    (∀ (inv : Invocation) (d : ℚ) (p : Proc) (last : ℤ), ∃ rest,
      (run_ffmpeg_command inv 2 d p last).1 =
        Event.invoked inv :: Event.progress 50 :: rest) ∧
    (∀ (inv : Invocation) (d : ℚ) (r : ℤ) (last : ℤ),
      (run_ffmpeg_command inv 2 d ⟨[], r⟩ last).1 =
        [Event.invoked inv, Event.progress 50]) := by
  refine ⟨?_, ?_, ?_⟩
  · intro inv d p last evs l' h
    unfold run_ffmpeg_command at h
    split at h
    · injection h with h1 h2
      exact Option.noConfusion h2
    · rw [if_pos rfl] at h
      injection h with h1 h2
      injection h2 with h2'
      refine ⟨h2'.symm, ?_⟩
      rw [← h1]
      exact List.getLast?_concat _
  · intro inv d p last
    unfold run_ffmpeg_command
    split
    · next vs heq => exact ⟨List.map Event.progress vs, by simp⟩
    · next vs l'' heq =>
        rw [if_neg (by decide)]
        exact ⟨List.map Event.progress vs, by simp⟩
  · intro inv d r last
    unfold run_ffmpeg_command
    simp [passLoop]

/-- C3, witness: the pass-1 contract applied to a concrete silent
pass-1 subprocess. -/
theorem c3_witness :
    (50 : ℤ) = 50 ∧
    ([Event.invoked invC3w, Event.progress 50] : List Event).getLast? =
      some (Event.progress 50) :=
  c3_theorem.1 invC3w 10 ⟨[], 0⟩ 0
    [Event.invoked invC3w, Event.progress 50] 50 rfl

/-- C4, counterexample.  The full forwarded sequence `[50, 50, 58]` of
this two-pass job is not strictly increasing: the explicit 50 emitted
when pass 2 starts repeats the 50 emitted when pass 1 exited. -/
theorem c4_counterexample :
    progressValues (run envC4x jobCompress).1 = [50, 50, 58] ∧
    ¬ List.Chain' (· < ·) (progressValues (run envC4x jobCompress).1) := by
  have hp1 : run_ffmpeg_command
      (.encodePass ((none : Option (List Char)).getD jobCompress.input_file)
        (pyOrQ none jobCompress.target_bitrate) 1 none) 1 10
      envC4x.pass1Proc 0 =
      ([Event.invoked (.encodePass ((none : Option (List Char)).getD
          jobCompress.input_file) (pyOrQ none jobCompress.target_bitrate) 1
          none), Event.progress 50], some 50) := by
    simp only [run_ffmpeg_command]
    rw [show envC4x.pass1Proc.stderrLines = [] from rfl]
    simp [passLoop]
  have hp2 : run_ffmpeg_command
      (.encodePass ((none : Option (List Char)).getD jobCompress.input_file)
        (pyOrQ none jobCompress.target_bitrate) 2 (some jobCompress.output_file))
      2 10 envC4x.pass2Proc 50 =
      ([Event.invoked (.encodePass ((none : Option (List Char)).getD
          jobCompress.input_file) (pyOrQ none jobCompress.target_bitrate) 2
          (some jobCompress.output_file)),
        Event.progress 50, Event.progress 58], some 58) := by
    simp only [run_ffmpeg_command]
    rw [show envC4x.pass2Proc.stderrLines =
      ["frame=2 time=00:00:02.00 x".data] from rfl]
    rw [show passLoop 2 10 50 ["frame=2 time=00:00:02.00 x".data] =
      ([58], some 58) by
        show (match lineUpdate 2 10 50 "frame=2 time=00:00:02.00 x".data with
          | none => ([], (none : Option ℤ))
          | some (last', e) =>
              (e.toList ++ (passLoop 2 10 last' []).1,
                (passLoop 2 10 last' []).2)) = ([58], some 58)
        rw [lineUpdate_c4]
        rfl]
    simp
  have hcv := compress_video_eval envC4x jobCompress none none 0 10 _ _ 50 58
    rfl hp1 hp2
  have hrun := run_compress_eval envC4x jobCompress _ 1048576 rfl rfl hcv rfl rfl
  have hv : progressValues (run envC4x jobCompress).1 = [50, 50, 58] := by
    rw [hrun]
    simp [progressValues]
  refine ⟨hv, ?_⟩
  rw [hv]
  exact fun h => lt_irrefl (50 : ℤ) h.rel_head

/-- C4, amended: a percent emission produced by a parsed `time=` line
is always strictly greater than the previous `last_progress`, but the
full forwarded sequence of a job is only guaranteed non-decreasing
(the explicit emissions can repeat the last value). -/
theorem c4_theorem :
    (∀ (pn : ℕ) (d : ℚ) (last : ℤ) (line : List Char) (last' v : ℤ),
      lineUpdate pn d last line = some (last', some v) → last < v) ∧
    (∀ (env : Env) (j : Job),
      List.Chain' (· ≤ ·) (progressValues (run env j).1)) := by
  constructor
  · intro pn d last line last' v h
    rcases lineUpdate_spec pn d last line last' (some v) h with
      ⟨habs, _⟩ | ⟨w, hw, _, hlt, _⟩
    · exact Option.noConfusion habs
    · injection hw with hw'
      rw [hw']
      exact hlt
  · intro env j
    exact (run_chain env j).1.tail

/-- C4, witness: the strict guard at a concrete pass-1 emission. -/
theorem c4_witness : (0 : ℤ) < 4 :=
  c4_theorem.1 1 10 0 "frame=1 time=00:00:01.00 x".data 4 4 lineUpdate_w4

/-- C5: over one job the forwarded progress values are non-decreasing
and each lies in `[0, 100]`; a job without a positive target size (the
trim-only branch) whose pipeline completes emits exactly `[100]` — the
progress jumps straight to 100. -/
theorem c5_theorem : ∀ (env : Env) (j : Job),
    List.Chain' (· ≤ ·) (progressValues (run env j).1) ∧
    (∀ v ∈ progressValues (run env j).1, (0 : ℤ) ≤ v ∧ v ≤ 100) ∧
    (hasTarget j = false → (pipeline env j).exn = none →
      progressValues (run env j).1 = [100]) := by
  intro env j
  obtain ⟨ch, hb⟩ := run_chain env j
  refine ⟨ch.tail, hb, ?_⟩
  intro hT hexn
  have hpv : progressValues (pipeline env j).events = [100] := by
    revert hexn
    unfold pipeline
    rw [hT]
    simp only [Bool.false_and, Bool.false_eq_true, if_false]
    split
    · next tevs m heqt =>
        intro hexn
        exact absurd hexn (by simp)
    · next tevs heqt =>
        intro _
        have hpvt : progressValues tevs = [] := by
          have h := trim_pv env j j.output_file
          rw [heqt] at h
          exact h
        show progressValues (tevs ++ [Event.progress 100]) = [100]
        rw [progressValues_append, hpvt, List.nil_append]
        rfl
  unfold run
  split
  · next m heqx =>
      rw [hexn] at heqx
      exact Option.noConfusion heqx
  · split
    · exact hpv
    · show progressValues ((pipeline env j).events ++
        [Event.done _ _, Event.cleanupRun]) = [100]
      rw [progressValues_append, hpv]
      rfl

/-- C5, witness: a clean trim-only run has the non-decreasing bounded
trace `[100]`. -/
theorem c5_witness :
    List.Chain' (· ≤ ·) (progressValues (run envC5w jobTrimOnly).1) ∧
    (∀ v ∈ progressValues (run envC5w jobTrimOnly).1, (0 : ℤ) ≤ v ∧ v ≤ 100) ∧
    progressValues (run envC5w jobTrimOnly).1 = [100] :=
  ⟨(c5_theorem envC5w jobTrimOnly).1, (c5_theorem envC5w jobTrimOnly).2.1,
    (c5_theorem envC5w jobTrimOnly).2.2 rfl rfl⟩

/-- C6, counterexample.  For a negative probed duration (not greater
than zero) the code raises nothing at all: it returns a negative
bitrate.  For a zero duration it raises `ZeroDivisionError`, not the
duration-unavailable `ValueError`.  The claimed failure on `d ≤ 0` does
not exist. -/
theorem c6_counterexample :
    plan_bitrate 10 (some (-2)) = Except.ok (-40960) ∧
    plan_bitrate 10 (some 0) ≠
      Except.error "Failed to get duration of trimmed video." := by
  constructor
  · norm_num [plan_bitrate]
  · norm_num [plan_bitrate]
    decide

/-- C6, amended: the Bitrate Planner computes exactly
`target_size * 8 * 1024 / d` with no clamping for every nonzero probed
duration `d` (negative durations included, yielding a negative bitrate
with no error); it fails with the duration-unavailable error only when
the probe returned nothing, and with a generic division error when the
duration is exactly zero. -/
theorem c6_theorem :
    (∀ s d : ℚ, d ≠ 0 →
        plan_bitrate s (some d) = Except.ok (s * 8 * 1024 / d)) ∧
    (∀ s : ℚ, plan_bitrate s none =
        Except.error "Failed to get duration of trimmed video.") ∧
    (∀ s : ℚ, plan_bitrate s (some 0) =
        Except.error "float division by zero") := by
  refine ⟨fun s d hd => ?_, fun s => rfl, fun s => ?_⟩
  · simp [plan_bitrate, hd]
  · simp [plan_bitrate]

/-- C6, witness: the planner at target 10 MB, duration 120 s gives
exactly `10 * 8 * 1024 / 120`. -/
theorem c6_witness :
    plan_bitrate 10 (some 120) = Except.ok (10 * 8 * 1024 / 120) :=
  c6_theorem.1 10 120 (by norm_num)

/-- C7: in the trim-and-check pipeline (positive target size and
complete window, trim succeeding, trimmed file measurable), if the
trimmed file's rounded megabyte size is at most the target, the trimmed
file is moved onto the output path and the run ends with no encode-pass
invocation (the output is the relocated trimmed file, byte-identical);
otherwise the bitrate is recomputed as `ts * 8 * 1024 / d` from the
trimmed file's probed duration `d`, and the Two-Pass Encoder is invoked
on the trimmed file with exactly that bitrate — pass 1 first, and pass 2
writing to the final output path once pass 1's loop completes. -/
theorem c7_theorem : ∀ (env : Env) (j : Job) (ts s t2 : ℚ) (b : ℕ),
    j.target_size = some ts → 0 < ts →
    j.start_time = some s → j.end_time = some t2 →
    env.trimProc.returncode = 0 →
    env.fileSizeBytes (tempName j.input_file) = some b →
    pipeline env j = compress_trim_video env j ts 0 ∧
    (get_file_size b ≤ ts → env.moveOk = true →
      compress_trim_video env j ts 0 =
        ⟨[Event.invoked (.trim j.input_file s (t2 - s) (tempName j.input_file)),
          Event.moved (tempName j.input_file) j.output_file], 0, none⟩) ∧
    (ts < get_file_size b →
      ∀ d : ℚ, env.probeDuration (tempName j.input_file) = some d → d ≠ 0 →
        (compress_trim_video env j ts 0).events =
          Event.invoked (.trim j.input_file s (t2 - s)
            (tempName j.input_file)) ::
            (compress_video env j (some (tempName j.input_file))
              (some (ts * 8 * 1024 / d)) 0).events ∧
        (compress_video env j (some (tempName j.input_file))
            (some (ts * 8 * 1024 / d)) 0).events.head? =
          some (Event.invoked (.encodePass (tempName j.input_file)
            (some (ts * 8 * 1024 / d)) 1 none)) ∧
        ((run_ffmpeg_command (.encodePass (tempName j.input_file)
              (some (ts * 8 * 1024 / d)) 1 none) 1 d env.pass1Proc 0).2 ≠
            none →
          Event.invoked (.encodePass (tempName j.input_file)
              (some (ts * 8 * 1024 / d)) 2 (some j.output_file)) ∈
            (compress_video env j (some (tempName j.input_file))
              (some (ts * 8 * 1024 / d)) 0).events)) := by
  intro env j ts s t2 b hts h0 hs he hret hb
  have htv : trim_video env j (tempName j.input_file) =
      ([Event.invoked (.trim j.input_file s (t2 - s)
        (tempName j.input_file))], none) := by
    unfold trim_video
    rw [hs, he]
    show (if env.trimProc.returncode ≠ 0 then
        ([Event.invoked (.trim j.input_file s (t2 - s)
          (tempName j.input_file))], some "Trimming failed.")
      else ([Event.invoked (.trim j.input_file s (t2 - s)
        (tempName j.input_file))], none)) = _
    rw [if_neg (by simp [hret])]
  refine ⟨?_, ?_, ?_⟩
  · have hT : hasTarget j = true := by
      simp [hasTarget, hts, h0]
    have hW : hasWindow j = true := by
      simp [hasWindow, hs, he]
    unfold pipeline
    rw [hT, hW]
    simp only [Bool.and_self, if_true]
    rw [hts]
    rfl
  · intro hle hmv
    simp only [compress_trim_video, htv, hb, hmv, if_true]
    rw [if_pos hle]
    rfl
  · intro hgt d hdp hd0
    have hbr : ts * 8 * 1024 / d ≠ 0 :=
      div_ne_zero (by positivity) hd0
    have hpy : pyOrQ (some (ts * 8 * 1024 / d)) j.target_bitrate =
        some (ts * 8 * 1024 / d) := by
      unfold pyOrQ
      show (if ts * 8 * 1024 / d = 0 then j.target_bitrate
        else some (ts * 8 * 1024 / d)) = some (ts * 8 * 1024 / d)
      rw [if_neg hbr]
    have hplan : plan_bitrate ts (env.probeDuration (tempName j.input_file)) =
        .ok (ts * 8 * 1024 / d) := by
      rw [hdp]
      unfold plan_bitrate
      show (if d = 0 then Except.error "float division by zero"
        else Except.ok (ts * 8 * 1024 / d)) = _
      rw [if_neg hd0]
    have hctv : compress_trim_video env j ts 0 =
        ⟨[Event.invoked (.trim j.input_file s (t2 - s)
            (tempName j.input_file))] ++
          (compress_video env j (some (tempName j.input_file))
            (some (ts * 8 * 1024 / d)) 0).events,
          (compress_video env j (some (tempName j.input_file))
            (some (ts * 8 * 1024 / d)) 0).lastProgress,
          (compress_video env j (some (tempName j.input_file))
            (some (ts * 8 * 1024 / d)) 0).exn⟩ := by
      simp only [compress_trim_video, htv, hb, hplan]
      rw [if_neg (not_le.mpr hgt)]
    refine ⟨by rw [hctv]; rfl, ?_, ?_⟩
    · unfold compress_video
      simp only [Option.getD_some, hpy]
      rw [hdp]
      show (match run_ffmpeg_command (.encodePass (tempName j.input_file)
          (some (ts * 8 * 1024 / d)) 1 none) 1 d env.pass1Proc 0 with
        | (evs1, none) =>
            (⟨evs1, 0, some "IndexError: list index out of range"⟩ : StepRes)
        | (evs1, some l1) =>
            match run_ffmpeg_command (.encodePass (tempName j.input_file)
              (some (ts * 8 * 1024 / d)) 2 (some j.output_file)) 2 d
              env.pass2Proc l1 with
            | (evs2, none) =>
                ⟨evs1 ++ evs2, l1, some "IndexError: list index out of range"⟩
            | (evs2, some l2) => ⟨evs1 ++ evs2, l2, none⟩).events.head? =
        some (Event.invoked (.encodePass (tempName j.input_file)
          (some (ts * 8 * 1024 / d)) 1 none))
      obtain ⟨t, hc⟩ := rfc_cons (.encodePass (tempName j.input_file)
        (some (ts * 8 * 1024 / d)) 1 none) 1 d env.pass1Proc 0
      split
      · next evs1 heq1 =>
          rw [heq1] at hc
          have hc' : evs1 = Event.invoked (.encodePass (tempName j.input_file)
            (some (ts * 8 * 1024 / d)) 1 none) :: t := hc
          rw [hc']
          rfl
      · next evs1 l1 heq1 =>
          rw [heq1] at hc
          have hc' : evs1 = Event.invoked (.encodePass (tempName j.input_file)
            (some (ts * 8 * 1024 / d)) 1 none) :: t := hc
          split
          · next evs2 heq2 =>
              rw [hc']
              rfl
          · next evs2 l2 heq2 =>
              rw [hc']
              rfl
    · intro hno
      unfold compress_video
      simp only [Option.getD_some, hpy]
      rw [hdp]
      show Event.invoked (.encodePass (tempName j.input_file)
          (some (ts * 8 * 1024 / d)) 2 (some j.output_file)) ∈
        (match run_ffmpeg_command (.encodePass (tempName j.input_file)
            (some (ts * 8 * 1024 / d)) 1 none) 1 d env.pass1Proc 0 with
          | (evs1, none) =>
              (⟨evs1, 0, some "IndexError: list index out of range"⟩ : StepRes)
          | (evs1, some l1) =>
              match run_ffmpeg_command (.encodePass (tempName j.input_file)
                (some (ts * 8 * 1024 / d)) 2 (some j.output_file)) 2 d
                env.pass2Proc l1 with
              | (evs2, none) =>
                  ⟨evs1 ++ evs2, l1, some "IndexError: list index out of range"⟩
              | (evs2, some l2) => ⟨evs1 ++ evs2, l2, none⟩).events
      split
      · next evs1 heq1 =>
          rw [heq1] at hno
          exact absurd rfl hno
      · next evs1 l1 heq1 =>
          obtain ⟨t2', hc2⟩ := rfc_cons (.encodePass (tempName j.input_file)
            (some (ts * 8 * 1024 / d)) 2 (some j.output_file)) 2 d
            env.pass2Proc l1
          split
          · next evs2 heq2 =>
              rw [heq2] at hc2
              have hc2' : evs2 = Event.invoked (.encodePass
                (tempName j.input_file) (some (ts * 8 * 1024 / d)) 2
                (some j.output_file)) :: t2' := hc2
              rw [hc2']
              exact List.mem_append_right _ (List.mem_cons_self _ _)
          · next evs2 l2 heq2 =>
              rw [heq2] at hc2
              have hc2' : evs2 = Event.invoked (.encodePass
                (tempName j.input_file) (some (ts * 8 * 1024 / d)) 2
                (some j.output_file)) :: t2' := hc2
              rw [hc2']
              exact List.mem_append_right _ (List.mem_cons_self _ _)

/-- C7, witness: the cheap path at a concrete world — trimmed file of
1 MB against a 10 MB budget is moved, with no encode invocation in the
resulting step. -/
theorem c7_witness :
    pipeline envC7w jobBoth = compress_trim_video envC7w jobBoth 10 0 ∧
    compress_trim_video envC7w jobBoth 10 0 =
      ⟨[Event.invoked (.trim inPath 2 (7 - 2) (tempName inPath)),
        Event.moved (tempName inPath) outPath], 0, none⟩ :=
  ⟨(c7_theorem envC7w jobBoth 10 2 7 1048576 rfl (by norm_num) rfl rfl rfl
      rfl).1,
    (c7_theorem envC7w jobBoth 10 2 7 1048576 rfl (by norm_num) rfl rfl rfl
      rfl).2.1 (by rw [get_file_size_1MB]; norm_num) rfl⟩

/-- C8: the Time Parser replaces `,` by `.`, splits on `:`, maps
`float` over the parts (`floatParts`), and dispatches on the number of
parts — three is hours/minutes/seconds, two is minutes/seconds, one is
bare seconds — while any float-parse failure yields `0` rather than an
error; the four specified examples evaluate as claimed. -/
theorem c8_theorem :
    parse_time_to_seconds "01:02:03.50".data = 3723.5 ∧
    parse_time_to_seconds "02:15".data = 135 ∧
    parse_time_to_seconds "42".data = 42 ∧
    parse_time_to_seconds "bad".data = 0 ∧
    (∀ t a b c, floatParts t = some [a, b, c] →
        parse_time_to_seconds t = a * 3600 + b * 60 + c) ∧
    (∀ t a b, floatParts t = some [a, b] →
        parse_time_to_seconds t = a * 60 + b) ∧
    (∀ t a, floatParts t = some [a] → parse_time_to_seconds t = a) ∧
    (∀ t, floatParts t = none → parse_time_to_seconds t = 0) := by
  refine ⟨?_, ?_, ?_, ?_, parse3_eq, parse2_eq, parse1_eq, parse0_eq⟩
  · rw [parse3_eq "01:02:03.50".data (reprVal (false, [0, 1], []))
      (reprVal (false, [0, 2], [])) (reprVal (false, [0, 3], [5, 0])) rfl]
    norm_num [reprVal, natOfDigits, fracOfDigits, List.foldl_cons,
      List.foldl_nil, List.foldr_cons, List.foldr_nil]
  · rw [parse2_eq "02:15".data (reprVal (false, [0, 2], []))
      (reprVal (false, [1, 5], [])) rfl]
    norm_num [reprVal, natOfDigits, fracOfDigits, List.foldl_cons,
      List.foldl_nil, List.foldr_cons, List.foldr_nil]
  · rw [parse1_eq "42".data (reprVal (false, [4, 2], [])) rfl]
    norm_num [reprVal, natOfDigits, fracOfDigits, List.foldl_cons,
      List.foldl_nil, List.foldr_cons, List.foldr_nil]
  · exact parse0_eq "bad".data rfl

/-- C8, witness: the three-part dispatch applied at the concrete token
`"1:2:3"`. -/
theorem c8_witness : parse_time_to_seconds "1:2:3".data = 1 * 3600 + 2 * 60 + 3 :=
  c8_theorem.2.2.2.2.1 "1:2:3".data 1 2 3 floatParts_123

/-- C9: a job with neither a positive target size nor a complete trim
window is rejected with a reported error before any engine invocation:
the `else` branch calls `trim_video`, whose very first statement
`end_time - start_time` raises `TypeError` on the missing bound before
any subprocess is spawned; the controller converts it into a single
`error_signal` (no silent no-op, no `done_signal`), and the trace
contains no `Popen` at all. -/
theorem c9_theorem : ∀ (env : Env) (j : Job),
    hasTarget j = false → hasWindow j = false →
    run env j =
      ([Event.error "Error: unsupported operand type(s) for -: TypeError",
        Event.cleanupRun], none) ∧
    ∀ i, Event.invoked i ∉ (run env j).1 := by
  intro env j h1 h2
  have htrim : trim_video env j j.output_file =
      ([], some "unsupported operand type(s) for -: TypeError") := by
    cases hs : j.start_time with
    | none =>
        cases he : j.end_time <;> simp [trim_video, hs, he]
    | some s =>
        cases he : j.end_time with
        | none => simp [trim_video, hs, he]
        | some e => simp [hasWindow, hs, he] at h2
  have hrun : run env j =
      ([Event.error "Error: unsupported operand type(s) for -: TypeError",
        Event.cleanupRun], none) := by
    simp [run, pipeline, h1, htrim]
  refine ⟨hrun, fun i hi => ?_⟩
  rw [hrun] at hi
  simp at hi

/-- C9, witness: the rejection at the fully-`None` job. -/
theorem c9_witness :
    run envC9w jobNeither =
      ([Event.error "Error: unsupported operand type(s) for -: TypeError",
        Event.cleanupRun], none) ∧
    ∀ i, Event.invoked i ∉ (run envC9w jobNeither).1 :=
  c9_theorem envC9w jobNeither (by decide) (by decide)

/-- C10: `cleanup_temp_files` iterates over the directory listing of
the scratch folder, never consulting the registered artifact list (the
result is the same for any `registered` argument); every file and
directory entry whose deletion succeeds is removed even when other
entries fail (`other`-kind entries match neither `isfile` nor `isdir`
and are skipped), and exactly the failing file/directory entries are
logged. -/
theorem c10_theorem : ∀ (listing : List DirEntry)
    (reg reg' : List (List Char)),
    cleanup_temp_files listing reg = cleanup_temp_files listing reg' ∧
    (cleanup_temp_files listing reg).1 =
      listing.filter (fun e => e.kind == EntryKind.other || e.deleteFails) ∧
    (cleanup_temp_files listing reg).2 =
      (listing.filter
        (fun e => !(e.kind == EntryKind.other) && e.deleteFails)).map
        DirEntry.name := by
  intro listing reg reg'
  exact ⟨rfl, (cleanupLoop_spec listing).1, (cleanupLoop_spec listing).2⟩

end ClipUtils
